import Mathlib

/-!
# Verification of the overlay narration sequencer

Shallow embedding of the processing-overlay narration sequencer of
`src/static/js/main.js` (final revision, lines ~1028–1201): the constants
`OVERLAY_LINES`, `LINE_TYPE_SPEED_MS`, `LINE_GAP_BASE_MS`, `LINE_FADE_MS`,
and the functions `cancelOverlaySequence`, `ensureLinesContainer`,
`typewriterLine`, `runOverlaySequence`, `showProcessingOverlay`,
`showProcessingSuccess`, `clearFilesAfterSuccess`, `hideProcessingOverlay`.

JavaScript numbers appearing as the `filesCount` pacing hint are embedded as
an inductive type `JNum` (a rational, NaN, or an infinity); a non-numeric
argument is represented by the value its `Number(...)` coercion yields
(`nan` for values coercing to NaN).  A missing argument is `Option.none`
(the source's default parameter `filesCount = 1` then applies).

The asynchronous functions suspend only inside `await sleep(...)` (and the
single `requestAnimationFrame` callback); the embedding turns each maximal
synchronous segment between suspension points into one atomic state
transition, and represents the pending timer / animation-frame callbacks as
a task list.  An execution is a fold of externally chosen events (the three
entry points and "a pending callback fires") over the state, which models
the single-threaded, cooperatively scheduled event loop.
-/

namespace Overlay

/-! ## JavaScript numbers (`filesCount` hint) -/

/-- A JavaScript number: finite value, NaN, or an infinity. -/
inductive JNum where
  | fin (q : ℚ)
  | nan
  | posInf
  | negInf
deriving DecidableEq, Repr

/-- JavaScript truthiness of a number: `0` and `NaN` are falsy. -/
def jTruthy : JNum → Bool
  | .fin q => decide (q ≠ 0)
  | .nan => false
  | .posInf => true
  | .negInf => true

/-- JavaScript `x || d` on numbers. -/
def jOrElse (x d : JNum) : JNum := if jTruthy x then x else d

/-- JavaScript `Math.max` on two numbers (NaN-propagating). -/
def jMax : JNum → JNum → JNum
  | .nan, _ => .nan
  | _, .nan => .nan
  | .posInf, _ => .posInf
  | _, .posInf => .posInf
  | .negInf, y => y
  | x, .negInf => x
  | .fin p, .fin q => .fin (if p ≤ q then q else p)

/-- JavaScript `Math.min` on two numbers (NaN-propagating). -/
def jMin : JNum → JNum → JNum
  | .nan, _ => .nan
  | _, .nan => .nan
  | .negInf, _ => .negInf
  | _, .negInf => .negInf
  | .posInf, y => y
  | x, .posInf => x
  | .fin p, .fin q => .fin (if p ≤ q then p else q)

/-- JavaScript multiplication of numbers (`0 * ±Infinity` is NaN). -/
def jMul : JNum → JNum → JNum
  | .nan, _ => .nan
  | _, .nan => .nan
  | .fin p, .fin q => .fin (p * q)
  | .posInf, .posInf => .posInf
  | .posInf, .negInf => .negInf
  | .negInf, .posInf => .negInf
  | .negInf, .negInf => .posInf
  | .posInf, .fin q => if q = 0 then .nan else if 0 < q then .posInf else .negInf
  | .fin q, .posInf => if q = 0 then .nan else if 0 < q then .posInf else .negInf
  | .negInf, .fin q => if q = 0 then .nan else if 0 < q then .negInf else .posInf
  | .fin q, .negInf => if q = 0 then .nan else if 0 < q then .negInf else .posInf

/-! ## Sequencer constants (source lines 1033–1046) -/

/-- The fixed narration line queue (`OVERLAY_LINES`). -/
def OVERLAY_LINES : List String :=
  [ "Okay, Uploading your Files to my workspace.. This won\x27t take long!",
    "Now I\x27m reading through all the text in your documents. Fascinating stuff!",
    "Breaking down the contents into small chapters so that i can understand it better.",
    "Converting everything into a format my AI brain can process. This is where the magic happens!",
    "Building my knowledge index.. Almost there!",
    "Perfect I\x27ve learned everything from your documents. I\x27m ready to use this new knowledge.",
    "Thank you for these interesting new information !" ]

/-- `LINE_TYPE_SPEED_MS = 60` (ms per character). -/
def LINE_TYPE_SPEED_MS : ℕ := 60

/-- `LINE_GAP_BASE_MS = 210` (base inter-line wait). -/
def LINE_GAP_BASE_MS : ℕ := 210

/-- `LINE_FADE_MS = 350` (fade-out duration). -/
def LINE_FADE_MS : ℕ := 350

/-- The completion message `msg` of `showProcessingSuccess`. -/
def successMsg : String :=
  "Done. Training complete — I\x27m ready to answer using your Files."

/-! ## Pacing arithmetic (source lines 1114–1115)

`const count = Math.max(1, Number(filesCount) || 1);`
`const gapMs = Math.min(1200, LINE_GAP_BASE_MS * count);` -/

/-- `Math.max(1, Number(filesCount) || 1)` — the normalized count. -/
def normCount (x : JNum) : JNum := jMax (.fin 1) (jOrElse x (.fin 1))

/-- `Math.min(1200, LINE_GAP_BASE_MS * count)` — the inter-line gap (ms). -/
def gapMs (x : JNum) : JNum :=
  jMin (.fin 1200) (jMul (.fin (LINE_GAP_BASE_MS : ℚ)) (normCount x))

/-! ## Per-character typing delay (source lines 1096–1098)

`const extra = ch === "." || ch === "!" || ch === "?" || ch === ","
   ? LINE_TYPE_SPEED_MS * 3 : 0;`
`await sleep(LINE_TYPE_SPEED_MS + extra);` -/

/-- The punctuation test of `typewriterLine` (source line 1097). -/
def isPauseChar (c : Char) : Bool := c = '.' || c = '!' || c = '?' || c = ','

/-- The delay slept after appending character `c` (ms). -/
def typeDelay (c : Char) : ℕ :=
  LINE_TYPE_SPEED_MS + (if isPauseChar c then LINE_TYPE_SPEED_MS * 3 else 0)

/-- Stated from the spec's words, for comparison with the source's
`isPauseChar`: the sentence-ending punctuation marks of English prose are
the full stop, the exclamation mark and the question mark (a comma does not
end a sentence). -/
def specSentenceEndingPunct (c : Char) : Bool := c = '.' || c = '!' || c = '?'

/-! ## The sequencer state machine

The async functions suspend only at `await sleep(...)`; the lone
`requestAnimationFrame` callback is the only other deferred code.  Each
maximal synchronous segment is one atomic transition; pending callbacks live
in a task list, and the environment chooses which pending callback fires
next (and when the entry points are invoked), which models the
single-threaded cooperative event loop. -/

/-- Which overlay DOM elements the page provides. -/
structure Dom where
  hasLines : Bool      -- #processingLines
  hasSub : Bool        -- #processingSub
  hasOverlay : Bool    -- #processingOverlay
  hasDots : Bool       -- #dots
  hasTitle : Bool      -- #processingTitle
deriving DecidableEq, Repr

/-- A `.status-line` display node: its text content, whether the caret span
is currently attached to it, and its `show` / `hide` CSS classes. -/
structure DNode where
  text : String
  caret : Bool
  showCls : Bool
  hideCls : Bool
deriving DecidableEq, Repr

/-- The rendering target of one `typewriterLine` call: a created
`.status-line` node (multi-node path), or the `#processingSub` element
together with the identity of the caret span this call created. -/
inductive Tgt where
  | el (nid : ℕ)
  | sub (cid : ℕ)
deriving DecidableEq, Repr

/-- The suspension points of the async functions: what the pending
`setTimeout` callback will do when it fires.  `rid` is the run identity the
suspended invocation captured. -/
inductive Kont where
  | fadeWait (rid : ℕ) (gap : JNum) (oldN : ℕ) (li : ℕ)
  | charWait (rid : ℕ) (gap : JNum) (tgt : Tgt) (li : ℕ) (i : ℕ)
  | gapWait (rid : ℕ) (gap : JNum) (cur : Option ℕ) (li : ℕ)
  | sCharWait (rid : ℕ) (tgt : Tgt) (i : ℕ)
  | settleWait
deriving DecidableEq, Repr

/-- A pending callback: a `sleep` timer with its delay and continuation, or
a `requestAnimationFrame` callback (adds the `show` class to node `nid`). -/
inductive OTask where
  | timer (ms : JNum) (k : Kont)
  | raf (nid : ℕ)
deriving DecidableEq, Repr

/-- One character append, as recorded for reasoning: the run identity that
performed it, the node it went to (`none` = `#processingSub`), and the
character.  Ghost instrumentation: written, never read, by transitions. -/
structure LogE where
  rid : ℕ
  node : Option ℕ
  ch : Char
deriving DecidableEq, Repr

/-- The module-level mutable state, the DOM content the sequencer owns, and
the event loop's pending callbacks.  `log` is ghost (newest entry first). -/
structure St where
  runId : ℕ                 -- overlayRunId
  nextNode : ℕ              -- supply of fresh node identities
  store : List (ℕ × DNode)  -- every created .status-line node, attached or not
  children : List ℕ         -- children of #processingLines, in order
  subText : String          -- textContent of #processingSub
  subCarets : List ℕ        -- caret spans currently attached to #processingSub
  nextCaret : ℕ
  dotsText : String         -- textContent of #dots
  hidden : Bool             -- overlay has class "hidden"
  ariaHidden : Bool         -- aria-hidden="true"
  titleHidden : Bool        -- processingTitle display:none
  selectedFiles : ℕ         -- number of entries of selectedFiles
  trainType : String        -- selectedTrainType
  tasks : List OTask
  log : List LogE           -- ghost
deriving DecidableEq, Repr

/-- Look a node up in the store. -/
def getNode (st : List (ℕ × DNode)) (n : ℕ) : Option DNode :=
  (st.find? (fun p => p.1 == n)).map (fun p => p.2)

/-- Mutate the node with identity `n`. -/
def setNode (st : List (ℕ × DNode)) (n : ℕ) (f : DNode → DNode) :
    List (ℕ × DNode) :=
  st.map (fun p => if p.1 = n then (p.1, f p.2) else p)

/-- `await sleep(ms)`: schedule the continuation. -/
def sched (s : St) (ms : JNum) (k : Kont) : St :=
  { s with tasks := s.tasks ++ [.timer ms k] }

/-- `requestAnimationFrame(() => node.classList.add("show"))`. -/
def schedRaf (s : St) (n : ℕ) : St :=
  { s with tasks := s.tasks ++ [.raf n] }

/-- The `li`-th entry of the line queue. -/
def lineAt (li : ℕ) : String := OVERLAY_LINES.getD li ""

/-- Its characters (JS indexes the string per UTF-16 unit; every character
involved is a single unit). -/
def lineChars (li : ℕ) : List Char := (lineAt li).toList

/-- Append character `c` to the target, recording it in the ghost log (the
caret is detached and re-attached around the append, so it stays attached
afterwards). -/
def appendChar (s : St) (rid : ℕ) (tgt : Tgt) (c : Char) : St :=
  match tgt with
  | .el n =>
    { s with store := setNode s.store n (fun dn => { dn with text := dn.text.push c }),
             log := ⟨rid, some n, c⟩ :: s.log }
  | .sub _ =>
    { s with subText := s.subText.push c, log := ⟨rid, none, c⟩ :: s.log }

/-- `caret.remove()` after the character loop of `typewriterLine`. -/
def caretOff (s : St) (tgt : Tgt) : St :=
  match tgt with
  | .el n => { s with store := setNode s.store n (fun dn => { dn with caret := false }) }
  | .sub cid => { s with subCarets := s.subCarets.erase cid }

/-- The synchronous entry of `typewriterLine`: `el.textContent = ""` (which
also detaches every child of `el`, including any caret inside it), then the
fresh caret span is appended. -/
def twEnter (s : St) (tgt : Tgt) : St :=
  match tgt with
  | .el n =>
    { s with store := setNode s.store n (fun dn => { dn with text := "", caret := true }) }
  | .sub cid => { s with subText := "", subCarets := [cid] }

/-- The `currentNode` variable of `runOverlaySequence` once `typewriterLine`
on this target has returned. -/
def curOf : Tgt → Option ℕ
  | .el n => some n
  | .sub _ => none

/-- `typewriterLine` from its entry through the first character-loop
iteration, plus — when the string is empty or the identity check fails,
making `typewriterLine` return — the caller's next statement
`await sleep(gapMs)`: so this runs synchronously up to the next suspension
of `runOverlaySequence`. -/
def twStart (rid : ℕ) (gap : JNum) (tgt : Tgt) (li : ℕ) (s : St) : St :=
  match lineChars li with
  | [] => sched (caretOff (twEnter s tgt) tgt) gap (.gapWait rid gap (curOf tgt) li)
  | c :: _ =>
    if rid = s.runId then
      sched (appendChar (twEnter s tgt) rid tgt c) (.fin ((typeDelay c : ℕ) : ℚ))
        (.charWait rid gap tgt li 0)
    else
      sched (twEnter s tgt) gap (.gapWait rid gap (curOf tgt) li)

/-- Same for the `typewriterLine` call of `showProcessingSuccess`, whose
caller continues with `await sleep(240)`. -/
def twStartS (rid : ℕ) (tgt : Tgt) (s : St) : St :=
  match successMsg.toList with
  | [] => sched (caretOff (twEnter s tgt) tgt) (.fin 240) .settleWait
  | c :: _ =>
    if rid = s.runId then
      sched (appendChar (twEnter s tgt) rid tgt c) (.fin ((typeDelay c : ℕ) : ℚ))
        (.sCharWait rid tgt 0)
    else
      sched (twEnter s tgt) (.fin 240) .settleWait

/-- `cancelOverlaySequence` (source lines 1067–1074): increment the run
identity and clear the narration containers synchronously. -/
def cancelOverlaySequence (d : Dom) (s : St) : St :=
  { s with runId := s.runId + 1,
           children := if d.hasLines then [] else s.children,
           subText := if d.hasSub then "" else s.subText,
           subCarets := if d.hasSub then [] else s.subCarets,
           dotsText := if d.hasDots then "" else s.dotsText }

/-- `hideProcessingOverlay` (source lines 1194–1201); the Lottie stop call
is pure decoration and is not modelled. -/
def hideProcessingOverlay (d : Dom) (s : St) : St :=
  let s := cancelOverlaySequence d s
  if d.hasOverlay then { s with hidden := true, ariaHidden := true } else s

/-- `ensureLinesContainer`: `#processingLines` when present (`some true`,
the multi-node path), else `#processingSub` (`some false`), else `none`. -/
def ensureLinesContainer (d : Dom) : Option Bool :=
  if d.hasLines then some true else if d.hasSub then some false else none

/-- `clearFilesAfterSuccess` (source lines 1189–1192). -/
def clearFilesAfterSuccess (s : St) : St := { s with selectedFiles := 0 }

/-- `resetTrainingType` (source, section 6): resets the training-type
selection state. -/
def resetTrainingType (s : St) : St := { s with trainType := "" }

/-- The synchronous prefix of `runOverlaySequence(filesCount)` (source lines
1104–1144): early return without a container, identity capture
(`++overlayRunId`), container clearing, gap computation, then the first line
loop iteration down into `typewriterLine`'s first character. -/
def runOverlaySequence (d : Dom) (filesCount : JNum) (s : St) : St :=
  match ensureLinesContainer d with
  | none => s
  | some useNodes =>
    let rid := s.runId + 1
    let s := { s with runId := rid }
    let s := if useNodes then { s with children := [] }
             else { s with subText := "", subCarets := [] }
    let gap := gapMs filesCount
    if rid = s.runId then       -- loop-top identity check, first iteration
      if useNodes then          -- currentNode is null: no fade for line 0
        let n := s.nextNode
        let s := { s with nextNode := n + 1,
                          store := s.store ++ [(n, ⟨"", false, false, false⟩)],
                          children := s.children ++ [n] }
        let s := schedRaf s n
        twStart rid gap (.el n) 0 s
      else
        let cid := s.nextCaret
        let s := { s with nextCaret := cid + 1 }
        twStart rid gap (.sub cid) 0 s
    else s

/-- `showProcessingOverlay(filesCount = 1)` (source lines 1146–1160); the
Lottie animation calls are pure decoration and are not modelled.  `none`
stands for a missing argument, to which the default parameter applies. -/
def showProcessingOverlay (d : Dom) (filesCount : Option JNum) (s : St) : St :=
  if d.hasOverlay then
    let s := cancelOverlaySequence d s
    let s := if d.hasTitle then { s with titleHidden := true } else s
    let s := { s with hidden := false, ariaHidden := false }
    runOverlaySequence d (filesCount.getD (.fin 1)) s
  else s

/-- The synchronous prefix of `showProcessingSuccess` (source lines
1162–1187): cancellation, identity capture (without increment), the success
node (created with classes `status-line show`), and the first character of
the completion message. -/
def showProcessingSuccess (d : Dom) (s : St) : St :=
  let s := cancelOverlaySequence d s
  match ensureLinesContainer d with
  | none => hideProcessingOverlay d s
  | some useNodes =>
    let rid := s.runId
    if useNodes then
      let n := s.nextNode
      let s := { s with nextNode := n + 1,
                        store := s.store ++ [(n, ⟨"", false, true, false⟩)],
                        children := s.children ++ [n] }
      twStartS rid (.el n) s
    else
      let cid := s.nextCaret
      let s := { s with nextCaret := cid + 1 }
      twStartS rid (.sub cid) s

/-- Fire one pending `setTimeout` callback: the suspended invocation resumes
and runs synchronously to its next suspension point or to its end. -/
def resumeKont (d : Dom) (k : Kont) (s : St) : St :=
  match k with
  | .fadeWait rid gap oldN li =>
    -- after `await sleep(LINE_FADE_MS)`: NO identity check before the old
    -- node is removed and the next node is created, attached and entered
    let s := { s with children := s.children.erase oldN }
    let n := s.nextNode
    let s := { s with nextNode := n + 1,
                      store := s.store ++ [(n, ⟨"", false, false, false⟩)],
                      children := s.children ++ [n] }
    let s := schedRaf s n
    twStart rid gap (.el n) li s
  | .charWait rid gap tgt li i =>
    let cs := lineChars li
    if h : i + 1 < cs.length then
      if rid = s.runId then
        let c := cs.get ⟨i + 1, h⟩
        sched (appendChar s rid tgt c) (.fin ((typeDelay c : ℕ) : ℚ))
          (.charWait rid gap tgt li (i + 1))
      else
        -- identity check fails: typewriterLine returns, but the caller
        -- still runs `await sleep(gapMs)`
        sched s gap (.gapWait rid gap (curOf tgt) li)
    else
      -- loop exhausted: caret.remove() (unconditionally), then the gap
      sched (caretOff s tgt) gap (.gapWait rid gap (curOf tgt) li)
  | .gapWait rid gap cur li =>
    if li + 1 < OVERLAY_LINES.length then
      if rid = s.runId then
        match cur with
        | some oldN =>
          let fade := fun dn => { dn with showCls := false, hideCls := true }
          let s := { s with store := setNode s.store oldN fade }
          sched s (.fin ((LINE_FADE_MS : ℕ) : ℚ)) (.fadeWait rid gap oldN (li + 1))
        | none =>
          let cid := s.nextCaret
          let s := { s with nextCaret := cid + 1 }
          twStart rid gap (.sub cid) (li + 1) s
      else s            -- loop-top identity check: full abort
    else s              -- queue exhausted: the run completes
  | .sCharWait rid tgt i =>
    let cs := successMsg.toList
    if h : i + 1 < cs.length then
      if rid = s.runId then
        let c := cs.get ⟨i + 1, h⟩
        sched (appendChar s rid tgt c) (.fin ((typeDelay c : ℕ) : ℚ))
          (.sCharWait rid tgt (i + 1))
      else
        sched s (.fin 240) .settleWait
    else
      sched (caretOff s tgt) (.fin 240) .settleWait
  | .settleWait =>
    -- after `await sleep(240)`: no identity check; clear the file list,
    -- hide the overlay, reset the training type
    resetTrainingType (hideProcessingOverlay d (clearFilesAfterSuccess s))

/-- Fire a pending callback (timer or animation frame). -/
def resumeTask (d : Dom) (τ : OTask) (s : St) : St :=
  match τ with
  | .timer _ k => resumeKont d k s
  | .raf n =>
    { s with store := setNode s.store n (fun dn => { dn with showCls := true }) }

/-- An event-loop step chosen by the environment: one of the three public
entry points, or "pending callback number `i` fires". -/
inductive Ev where
  | start (c : Option JNum)
  | succeed
  | hide
  | fire (i : ℕ)
deriving DecidableEq, Repr

/-- One event-loop step. -/
def doEv (d : Dom) (s : St) (e : Ev) : St :=
  match e with
  | .start c => showProcessingOverlay d c s
  | .succeed => showProcessingSuccess d s
  | .hide => hideProcessingOverlay d s
  | .fire i =>
    if i < s.tasks.length then
      resumeTask d (s.tasks.getD i (.raf 0)) { s with tasks := s.tasks.eraseIdx i }
    else s

/-- The initial page state: no narration, overlay hidden, nothing pending. -/
def init : St :=
  { runId := 0, nextNode := 0, store := [], children := [], subText := "",
    subCarets := [], nextCaret := 0, dotsText := "", hidden := true,
    ariaHidden := true, titleHidden := false, selectedFiles := 0,
    trainType := "", tasks := [], log := [] }

/-- Run a list of environment events from a state. -/
def execFrom (d : Dom) (s : St) (es : List Ev) : St := es.foldl (doEv d) s

/-- Run a list of environment events from the initial state. -/
def exec (d : Dom) (es : List Ev) : St := execFrom d init es

/-- The timer-priority schedule: repeatedly fire the most recently scheduled
pending callback (which, while a single run is in flight, is always its
unique pending timer). -/
def driveLast (d : Dom) : ℕ → St → St
  | 0, s => s
  | n + 1, s => driveLast d n (doEv d s (.fire (s.tasks.length - 1)))

/-- The page configuration with every overlay element present. -/
def domAll : Dom := ⟨true, true, true, true, true⟩

/-- The log tag of a target. -/
def tgtNode : Tgt → Option ℕ
  | .el n => some n
  | .sub _ => none

/-- The run identity a suspended continuation captured (`settleWait`
captured none; its callback never checks the identity). -/
def kontRid : Kont → ℕ
  | .fadeWait rid _ _ _ => rid
  | .charWait rid _ _ _ _ => rid
  | .gapWait rid _ _ _ => rid
  | .sCharWait rid _ _ => rid
  | .settleWait => 0

/-- The run identity behind a pending callback (0 for callbacks that carry
none and never mutate narration text). -/
def taskRid : OTask → ℕ
  | .timer _ k => kontRid k
  | .raf _ => 0

/-- Everything the user can see of the overlay: the rendered children of
the narration container (with their node states), the fallback container's
text and carets, the dots, and the visibility flags. -/
def visState (s : St) : List (Option DNode) × String × List ℕ × String ×
    Bool × Bool × Bool :=
  (s.children.map (getNode s.store), s.subText, s.subCarets, s.dotsText,
   s.hidden, s.ariaHidden, s.titleHidden)

/-- The animation-frame callbacks accumulated by the canonical run while
the timers are always fired first. -/
def rafs (m : ℕ) : List OTask := (List.range m).map .raf

/-- The fully revealed, faded-out nodes of the lines before `li`. -/
def histStore (li : ℕ) : List (ℕ × DNode) :=
  (List.range li).map (fun j => (j, ⟨lineAt j, false, false, true⟩))

/-- The ghost log after the first `li` lines are fully revealed (newest
first; the canonical run has identity 2 and types line `j` into node `j`). -/
def histLog : ℕ → List LogE
  | 0 => []
  | li + 1 => (lineChars li).reverse.map (fun c => ⟨2, some li, c⟩) ++ histLog li

/-- Node `li` while characters `0..i` of line `li` are revealed. -/
def typingNode (li i : ℕ) : DNode :=
  ⟨String.mk ((lineChars li).take (i + 1)), true, false, false⟩

/-- The delay pending after character `i` of line `li`. -/
def chDelay (li i : ℕ) : JNum :=
  .fin ((typeDelay ((lineChars li).getD i ' ') : ℕ) : ℚ)

/-- The canonical run suspended in the character delay after appending
character `i` of line `li`. -/
def runSt (li i : ℕ) : St :=
  { runId := 2, nextNode := li + 1,
    store := histStore li ++ [(li, typingNode li i)],
    children := [li], subText := "", subCarets := [], nextCaret := 0,
    dotsText := "", hidden := false, ariaHidden := false, titleHidden := true,
    selectedFiles := 0, trainType := "",
    tasks := rafs (li + 1)
      ++ [.timer (chDelay li i) (.charWait 2 (.fin 210) (.el li) li i)],
    log := ((lineChars li).take (i + 1)).reverse.map (fun c => ⟨2, some li, c⟩)
      ++ histLog li }

/-- The canonical run suspended in the inter-line gap after line `li`. -/
def gapSt (li : ℕ) : St :=
  { runId := 2, nextNode := li + 1,
    store := histStore li ++ [(li, ⟨lineAt li, false, false, false⟩)],
    children := [li], subText := "", subCarets := [], nextCaret := 0,
    dotsText := "", hidden := false, ariaHidden := false, titleHidden := true,
    selectedFiles := 0, trainType := "",
    tasks := rafs (li + 1)
      ++ [.timer (.fin 210) (.gapWait 2 (.fin 210) (some li) li)],
    log := histLog (li + 1) }

/-- The canonical run suspended in the fade wait before line `li + 1`
(node `li` is fading out). -/
def fadeSt (li : ℕ) : St :=
  { runId := 2, nextNode := li + 1,
    store := histStore (li + 1),
    children := [li], subText := "", subCarets := [], nextCaret := 0,
    dotsText := "", hidden := false, ariaHidden := false, titleHidden := true,
    selectedFiles := 0, trainType := "",
    tasks := rafs (li + 1)
      ++ [.timer (.fin ((LINE_FADE_MS : ℕ) : ℚ)) (.fadeWait 2 (.fin 210) li (li + 1))],
    log := histLog (li + 1) }

/-- The canonical run after its natural completion: the queue exhausted,
only the animation-frame callbacks still pending. -/
def doneSt : St :=
  { runId := 2, nextNode := 7,
    store := histStore 6 ++ [(6, ⟨lineAt 6, false, false, false⟩)],
    children := [6], subText := "", subCarets := [], nextCaret := 0,
    dotsText := "", hidden := false, ariaHidden := false, titleHidden := true,
    selectedFiles := 0, trainType := "",
    tasks := rafs 7,
    log := histLog 7 }

/-- The state after the run (identity 2) reaches its fade wait and
`hideProcessingOverlay` supersedes it (identity 3, display cleared). -/
def c1hid : St :=
  { runId := 3, nextNode := 1, store := histStore 1, children := [],
    subText := "", subCarets := [], nextCaret := 0, dotsText := "",
    hidden := true, ariaHidden := true, titleHidden := true,
    selectedFiles := 0, trainType := "",
    tasks := rafs 1 ++ [.timer (.fin ((LINE_FADE_MS : ℕ) : ℚ)) (.fadeWait 2 (.fin 210) 0 1)],
    log := histLog 1 }

/-- What the superseded fade-wait callback then does: attaches a fresh empty
node (with the caret) to the cleared container and schedules a further gap
timer. -/
def c1post : St :=
  { runId := 3, nextNode := 2,
    store := histStore 1 ++ [(1, ⟨"", true, false, false⟩)], children := [1],
    subText := "", subCarets := [], nextCaret := 0, dotsText := "",
    hidden := true, ariaHidden := true, titleHidden := true,
    selectedFiles := 0, trainType := "",
    tasks := rafs 1 ++ [.raf 1] ++ [.timer (.fin 210) (.gapWait 2 (.fin 210) (some 1) 1)],
    log := histLog 1 }

/-- The state after the run (identity 2) is superseded by
`hideProcessingOverlay` during its very first character delay. -/
def c1hidB : St :=
  { runId := 3, nextNode := 1, store := histStore 0 ++ [(0, typingNode 0 0)],
    children := [], subText := "", subCarets := [], nextCaret := 0, dotsText := "",
    hidden := true, ariaHidden := true, titleHidden := true,
    selectedFiles := 0, trainType := "",
    tasks := rafs 1 ++ [.timer (chDelay 0 0) (.charWait 2 (.fin 210) (.el 0) 0 0)],
    log := ((lineChars 0).take 1).reverse.map (fun c => ⟨2, some 0, c⟩) ++ histLog 0 }

/-- What the superseded character-delay callback then does: nothing visible,
but it still schedules one further inter-line gap timer. -/
def c1postB : St :=
  { c1hidB with tasks := rafs 1 ++ [.timer (.fin 210) (.gapWait 2 (.fin 210) (some 0) 0)] }

/-- The executions' safety invariant: every pending callback and every
logged append carries a run identity no newer than the current one, the
log's identities are monotone (newest first), and the node store only holds
identities below the freshness counter. -/
def Inv (s : St) : Prop :=
  (∀ τ ∈ s.tasks, taskRid τ ≤ s.runId)
  ∧ (∀ p ∈ s.log, p.rid ≤ s.runId)
  ∧ s.log.Chain' (fun a b => b.rid ≤ a.rid)
  ∧ (∀ p ∈ s.store, p.1 < s.nextNode)

def c2wit : St :=
  { init with runId := 1, tasks := [.timer (.fin 60) (.charWait 1 (.fin 210) (.el 0) 0 0)] }

/-- The characters of the completion message. -/
def msgChars : List Char := successMsg.toList

/-- The state while `showProcessingSuccess` (invoked on state `s`, which
captured identity `s.runId + 1`) has revealed characters `0..i` of the
completion message in its own fresh node. -/
def succSt (s : St) (i : ℕ) : St :=
  { runId := s.runId + 1, nextNode := s.nextNode + 1,
    store := s.store ++ [(s.nextNode, ⟨String.mk (msgChars.take (i + 1)), true, true, false⟩)],
    children := [s.nextNode],
    subText := "", subCarets := [], nextCaret := s.nextCaret, dotsText := "",
    hidden := s.hidden, ariaHidden := s.ariaHidden, titleHidden := s.titleHidden,
    selectedFiles := s.selectedFiles, trainType := s.trainType,
    tasks := s.tasks ++ [.timer (.fin ((typeDelay (msgChars.getD i ' ') : ℕ) : ℚ))
      (.sCharWait (s.runId + 1) (.el s.nextNode) i)],
    log := (msgChars.take (i + 1)).reverse.map
      (fun c => ⟨s.runId + 1, some s.nextNode, c⟩) ++ s.log }

/-- The state once the completion message is fully revealed and the settle
delay is pending. -/
def settleSt (s : St) : St :=
  { runId := s.runId + 1, nextNode := s.nextNode + 1,
    store := s.store ++ [(s.nextNode, ⟨successMsg, false, true, false⟩)],
    children := [s.nextNode],
    subText := "", subCarets := [], nextCaret := s.nextCaret, dotsText := "",
    hidden := s.hidden, ariaHidden := s.ariaHidden, titleHidden := s.titleHidden,
    selectedFiles := s.selectedFiles, trainType := s.trainType,
    tasks := s.tasks ++ [.timer (.fin 240) .settleWait],
    log := msgChars.reverse.map (fun c => ⟨s.runId + 1, some s.nextNode, c⟩) ++ s.log }

/-- The state after the settle callback: files cleared, overlay hidden,
training type reset. -/
def succFinalSt (s : St) : St :=
  { runId := s.runId + 2, nextNode := s.nextNode + 1,
    store := s.store ++ [(s.nextNode, ⟨successMsg, false, true, false⟩)],
    children := [],
    subText := "", subCarets := [], nextCaret := s.nextCaret, dotsText := "",
    hidden := true, ariaHidden := true, titleHidden := s.titleHidden,
    selectedFiles := 0, trainType := "",
    tasks := s.tasks,
    log := msgChars.reverse.map (fun c => ⟨s.runId + 1, some s.nextNode, c⟩) ++ s.log }

/-! ### Projection lemmas for the primitive operations -/

@[simp] lemma sched_runId (s : St) (ms : JNum) (k : Kont) :
    (sched s ms k).runId = s.runId := rfl
@[simp] lemma sched_log (s : St) (ms : JNum) (k : Kont) :
    (sched s ms k).log = s.log := rfl
@[simp] lemma sched_store (s : St) (ms : JNum) (k : Kont) :
    (sched s ms k).store = s.store := rfl
@[simp] lemma sched_children (s : St) (ms : JNum) (k : Kont) :
    (sched s ms k).children = s.children := rfl
@[simp] lemma sched_nextNode (s : St) (ms : JNum) (k : Kont) :
    (sched s ms k).nextNode = s.nextNode := rfl
@[simp] lemma sched_tasks (s : St) (ms : JNum) (k : Kont) :
    (sched s ms k).tasks = s.tasks ++ [.timer ms k] := rfl
@[simp] lemma sched_subText (s : St) (ms : JNum) (k : Kont) :
    (sched s ms k).subText = s.subText := rfl
@[simp] lemma sched_hidden (s : St) (ms : JNum) (k : Kont) :
    (sched s ms k).hidden = s.hidden := rfl

@[simp] lemma schedRaf_runId (s : St) (n : ℕ) :
    (schedRaf s n).runId = s.runId := rfl
@[simp] lemma schedRaf_log (s : St) (n : ℕ) :
    (schedRaf s n).log = s.log := rfl
@[simp] lemma schedRaf_store (s : St) (n : ℕ) :
    (schedRaf s n).store = s.store := rfl
@[simp] lemma schedRaf_children (s : St) (n : ℕ) :
    (schedRaf s n).children = s.children := rfl
@[simp] lemma schedRaf_nextNode (s : St) (n : ℕ) :
    (schedRaf s n).nextNode = s.nextNode := rfl
@[simp] lemma schedRaf_tasks (s : St) (n : ℕ) :
    (schedRaf s n).tasks = s.tasks ++ [.raf n] := rfl

@[simp] lemma appendChar_runId (s : St) (rid : ℕ) (tgt : Tgt) (c : Char) :
    (appendChar s rid tgt c).runId = s.runId := by cases tgt <;> rfl
@[simp] lemma appendChar_tasks (s : St) (rid : ℕ) (tgt : Tgt) (c : Char) :
    (appendChar s rid tgt c).tasks = s.tasks := by cases tgt <;> rfl
@[simp] lemma appendChar_nextNode (s : St) (rid : ℕ) (tgt : Tgt) (c : Char) :
    (appendChar s rid tgt c).nextNode = s.nextNode := by cases tgt <;> rfl
@[simp] lemma appendChar_children (s : St) (rid : ℕ) (tgt : Tgt) (c : Char) :
    (appendChar s rid tgt c).children = s.children := by cases tgt <;> rfl
@[simp] lemma appendChar_log (s : St) (rid : ℕ) (tgt : Tgt) (c : Char) :
    (appendChar s rid tgt c).log = ⟨rid, tgtNode tgt, c⟩ :: s.log := by
  cases tgt <;> rfl

@[simp] lemma caretOff_runId (s : St) (tgt : Tgt) :
    (caretOff s tgt).runId = s.runId := by cases tgt <;> rfl
@[simp] lemma caretOff_tasks (s : St) (tgt : Tgt) :
    (caretOff s tgt).tasks = s.tasks := by cases tgt <;> rfl
@[simp] lemma caretOff_log (s : St) (tgt : Tgt) :
    (caretOff s tgt).log = s.log := by cases tgt <;> rfl
@[simp] lemma caretOff_nextNode (s : St) (tgt : Tgt) :
    (caretOff s tgt).nextNode = s.nextNode := by cases tgt <;> rfl
@[simp] lemma caretOff_children (s : St) (tgt : Tgt) :
    (caretOff s tgt).children = s.children := by cases tgt <;> rfl

@[simp] lemma twEnter_runId (s : St) (tgt : Tgt) :
    (twEnter s tgt).runId = s.runId := by cases tgt <;> rfl
@[simp] lemma twEnter_tasks (s : St) (tgt : Tgt) :
    (twEnter s tgt).tasks = s.tasks := by cases tgt <;> rfl
@[simp] lemma twEnter_log (s : St) (tgt : Tgt) :
    (twEnter s tgt).log = s.log := by cases tgt <;> rfl
@[simp] lemma twEnter_nextNode (s : St) (tgt : Tgt) :
    (twEnter s tgt).nextNode = s.nextNode := by cases tgt <;> rfl
@[simp] lemma twEnter_children (s : St) (tgt : Tgt) :
    (twEnter s tgt).children = s.children := by cases tgt <;> rfl

@[simp] lemma cancel_runId (d : Dom) (s : St) :
    (cancelOverlaySequence d s).runId = s.runId + 1 := rfl
@[simp] lemma cancel_tasks (d : Dom) (s : St) :
    (cancelOverlaySequence d s).tasks = s.tasks := rfl
@[simp] lemma cancel_log (d : Dom) (s : St) :
    (cancelOverlaySequence d s).log = s.log := rfl
@[simp] lemma cancel_store (d : Dom) (s : St) :
    (cancelOverlaySequence d s).store = s.store := rfl
@[simp] lemma cancel_nextNode (d : Dom) (s : St) :
    (cancelOverlaySequence d s).nextNode = s.nextNode := rfl

@[simp] lemma hide_runId (d : Dom) (s : St) :
    (hideProcessingOverlay d s).runId = s.runId + 1 := by
  unfold hideProcessingOverlay; split <;> rfl
@[simp] lemma hide_tasks (d : Dom) (s : St) :
    (hideProcessingOverlay d s).tasks = s.tasks := by
  unfold hideProcessingOverlay; split <;> rfl
@[simp] lemma hide_log (d : Dom) (s : St) :
    (hideProcessingOverlay d s).log = s.log := by
  unfold hideProcessingOverlay; split <;> rfl
@[simp] lemma hide_store (d : Dom) (s : St) :
    (hideProcessingOverlay d s).store = s.store := by
  unfold hideProcessingOverlay; split <;> rfl
@[simp] lemma hide_nextNode (d : Dom) (s : St) :
    (hideProcessingOverlay d s).nextNode = s.nextNode := by
  unfold hideProcessingOverlay; split <;> rfl

lemma twStart_runId (rid : ℕ) (gap : JNum) (tgt : Tgt) (li : ℕ) (s : St) :
    (twStart rid gap tgt li s).runId = s.runId := by
  unfold twStart
  split
  · simp
  · split <;> simp

lemma twStartS_runId (rid : ℕ) (tgt : Tgt) (s : St) :
    (twStartS rid tgt s).runId = s.runId := by
  unfold twStartS
  split
  · simp
  · split <;> simp

/-! ## C8: `showProcessingOverlay` without an overlay container -/

/-- C8. When the overlay container element is absent, `start`
(`showProcessingOverlay`) is a no-op: it returns with the state — DOM
content, run identity, pending callbacks — completely unchanged.  (The
embedding of the function is total, which reflects that the source function
has no throwing operation on this path or any other.) -/
theorem c8_start_noop_without_overlay (d : Dom) (c : Option JNum) (s : St)
    (h : d.hasOverlay = false) : doEv d s (.start c) = s := by
  simp [doEv, showProcessingOverlay, h]

/-- Witness for `c8_start_noop_without_overlay`. -/
theorem c8_start_noop_without_overlay_witness :
    doEv ⟨true, true, false, true, true⟩ init (.start (some (.fin 5))) = init :=
  c8_start_noop_without_overlay ⟨true, true, false, true, true⟩
    (some (.fin 5)) init rfl

/-! ## C5: `hideProcessingOverlay` always clears and hides, idempotently -/

/-- C5. Calling `cancel`/`hide` (`hideProcessingOverlay`) at any point —
before any start, mid-run, or repeatedly — synchronously empties the
narration containers present in the page, marks the overlay hidden,
increments the run identity by one, and is idempotent on the visible state:
a second consecutive call changes nothing visible. -/
theorem c5_hide_clears_idempotent (d : Dom) (s : St) :
    (d.hasLines = true → (hideProcessingOverlay d s).children = [])
    ∧ (d.hasSub = true → (hideProcessingOverlay d s).subText = ""
        ∧ (hideProcessingOverlay d s).subCarets = [])
    ∧ (d.hasDots = true → (hideProcessingOverlay d s).dotsText = "")
    ∧ (d.hasOverlay = true → (hideProcessingOverlay d s).hidden = true
        ∧ (hideProcessingOverlay d s).ariaHidden = true)
    ∧ (hideProcessingOverlay d s).runId = s.runId + 1
    ∧ doEv d s .hide = hideProcessingOverlay d s
    ∧ visState (hideProcessingOverlay d (hideProcessingOverlay d s))
        = visState (hideProcessingOverlay d s) := by
  refine ⟨fun h => ?_, fun h => ?_, fun h => ?_, fun h => ?_, ?_, rfl, ?_⟩ <;>
    simp_all [hideProcessingOverlay, cancelOverlaySequence, visState] <;>
    split_ifs <;> simp_all

/-- Witness for `c5_hide_clears_idempotent`. -/
theorem c5_hide_clears_idempotent_witness :
    (hideProcessingOverlay domAll init).children = []
    ∧ (hideProcessingOverlay domAll init).hidden = true := by
  have h := c5_hide_clears_idempotent domAll init
  exact ⟨h.1 rfl, (h.2.2.2.1 rfl).1⟩

/-! ## The canonical uncancelled run, step by step

Rational-number values (the computed gap) do not reduce in the kernel, so
the long executions are settled structurally: the state of the canonical
run (started with `filesCount = 1`, timers always fired in order) is given
in closed form at every suspension point, and one lemma per transition kind
carries it forward. -/

lemma list_eraseIdx_concat {α : Type} (l : List α) (a : α) :
    (l ++ [a]).eraseIdx l.length = l := by
  induction l with
  | nil => rfl
  | cons x xs ih => simp [List.eraseIdx_cons_succ, ih]

lemma list_getD_concat {α : Type} :
    ∀ (l : List α) (a d : α), (l ++ [a]).getD l.length d = a
  | [], _, _ => rfl
  | _ :: xs, a, d => list_getD_concat xs a d

/-- Firing the last pending callback. -/
lemma doEv_fire_last (d : Dom) (s : St) (base : List OTask) (τ : OTask)
    (h : s.tasks = base ++ [τ]) :
    doEv d s (.fire base.length) = resumeTask d τ { s with tasks := base } := by
  have hlt : base.length < s.tasks.length := by simp [h]
  simp only [doEv, if_pos hlt]
  rw [h, list_getD_concat, list_eraseIdx_concat]

lemma driveLast_succ (d : Dom) (n : ℕ) (s : St) :
    driveLast d (n + 1) s
      = driveLast d n (doEv d s (.fire (s.tasks.length - 1))) := rfl

lemma driveLast_add (d : Dom) (a b : ℕ) (s : St) :
    driveLast d (a + b) s = driveLast d b (driveLast d a s) := by
  induction a generalizing s with
  | zero => simp [driveLast]
  | succ a ih =>
    rw [Nat.succ_add, driveLast_succ, driveLast_succ, ih]

lemma rafs_length (m : ℕ) : (rafs m).length = m := by simp [rafs]

lemma rafs_succ (m : ℕ) : rafs (m + 1) = rafs m ++ [.raf m] := by
  simp [rafs, List.range_succ]

lemma histStore_succ (li : ℕ) :
    histStore (li + 1) = histStore li ++ [(li, ⟨lineAt li, false, false, true⟩)] := by
  simp [histStore, List.range_succ]

lemma histStore_keys (li : ℕ) : ∀ p ∈ histStore li, p.1 ≠ li := by
  intro p hp
  simp only [histStore, List.mem_map, List.mem_range] at hp
  obtain ⟨j, hj, rfl⟩ := hp
  exact Nat.ne_of_lt hj

lemma setNode_append_fresh (st : List (ℕ × DNode)) (n : ℕ) (v : DNode)
    (f : DNode → DNode) (h : ∀ p ∈ st, p.1 ≠ n) :
    setNode (st ++ [(n, v)]) n f = st ++ [(n, f v)] := by
  simp only [setNode, List.map_append]
  congr 1
  · rw [show st.map (fun p => if p.1 = n then (p.1, f p.2) else p) = st.map id from
      List.map_congr_left (fun p hp => by simp [h p hp])]
    simp
  · simp

lemma string_mk_lineChars (li : ℕ) : String.mk (lineChars li) = lineAt li := rfl

lemma list_getD_eq_get {α : Type} :
    ∀ (l : List α) (n : ℕ) (d : α) (h : n < l.length), l.getD n d = l.get ⟨n, h⟩
  | _ :: _, 0, _, _ => rfl
  | _ :: xs, n + 1, d, h => list_getD_eq_get xs n d (by simpa using h)

lemma charStep (li i : ℕ) (h : i + 1 < (lineChars li).length) :
    doEv domAll (runSt li i) (.fire (li + 1)) = runSt li (i + 1) := by
  have hfire : Ev.fire (li + 1)
      = Ev.fire (rafs (li + 1)).length := by rw [rafs_length]
  rw [hfire,
    doEv_fire_last domAll (runSt li i) (rafs (li + 1))
      (.timer (chDelay li i) (.charWait 2 (.fin 210) (.el li) li i)) rfl]
  simp only [resumeTask, resumeKont]
  rw [dif_pos h, if_pos (show (2 : ℕ) = (runSt li i).runId by rfl)]
  simp only [sched, appendChar, runSt, typingNode, chDelay]
  rw [setNode_append_fresh _ _ _ _ (histStore_keys li)]
  rw [list_getD_eq_get (lineChars li) (i + 1) ' ' h]
  have htake := List.take_concat_get (lineChars li) (i + 1) h
  simp only [String.push, List.get_eq_getElem, ← htake, List.concat_eq_append,
    List.reverse_append, List.reverse_cons, List.reverse_nil, List.nil_append,
    List.map_append, List.map_cons, List.map_nil, List.singleton_append,
    List.cons_append, List.append_assoc]

lemma lineDone (li : ℕ) (h : 0 < (lineChars li).length) :
    doEv domAll (runSt li ((lineChars li).length - 1)) (.fire (li + 1)) = gapSt li := by
  have hfire : Ev.fire (li + 1) = Ev.fire (rafs (li + 1)).length := by rw [rafs_length]
  rw [hfire, doEv_fire_last domAll _ (rafs (li + 1)) _ rfl]
  simp only [resumeTask, resumeKont]
  rw [dif_neg (by omega)]
  simp only [caretOff, sched, runSt, gapSt, typingNode, curOf]
  rw [setNode_append_fresh _ _ _ _ (histStore_keys li)]
  have hlen : (lineChars li).length - 1 + 1 = (lineChars li).length := by omega
  rw [hlen, List.take_length, string_mk_lineChars]
  simp [histLog]

lemma gapStep (li : ℕ) (h : li + 1 < 7) :
    doEv domAll (gapSt li) (.fire (li + 1)) = fadeSt li := by
  have hfire : Ev.fire (li + 1) = Ev.fire (rafs (li + 1)).length := by rw [rafs_length]
  rw [hfire, doEv_fire_last domAll _ (rafs (li + 1)) _ rfl]
  simp only [resumeTask, resumeKont]
  rw [if_pos (show li + 1 < OVERLAY_LINES.length by simpa using h),
    if_pos (show (2 : ℕ) = (gapSt li).runId by rfl)]
  simp only [sched, gapSt, fadeSt]
  rw [setNode_append_fresh _ _ _ _ (histStore_keys li), histStore_succ]

lemma gapEnd : doEv domAll (gapSt 6) (.fire 7) = doneSt := by
  have hfire : Ev.fire 7 = Ev.fire (rafs 7).length := by rw [rafs_length]
  rw [hfire, doEv_fire_last domAll _ (rafs 7) _ rfl]
  simp only [resumeTask, resumeKont]
  rw [if_neg (show ¬ (6 + 1 < OVERLAY_LINES.length) by decide)]
  simp [gapSt, doneSt]

lemma fadeStep (li : ℕ) (hne : lineChars (li + 1) ≠ []) :
    doEv domAll (fadeSt li) (.fire (li + 1)) = runSt (li + 1) 0 := by
  have hfire : Ev.fire (li + 1) = Ev.fire (rafs (li + 1)).length := by rw [rafs_length]
  rw [hfire, doEv_fire_last domAll _ (rafs (li + 1)) _ rfl]
  simp only [resumeTask, resumeKont, fadeSt]
  obtain ⟨c, cs, hc⟩ := List.exists_cons_of_ne_nil hne
  simp only [twStart, hc, twEnter, appendChar, sched, schedRaf,
    eq_self_iff_true, if_true]
  rw [setNode_append_fresh _ _ _ _ (histStore_keys (li + 1))]
  simp only [runSt, typingNode, chDelay, hc, rafs_succ]
  rw [setNode_append_fresh _ _ _ _ (histStore_keys (li + 1))]
  simp [String.push, List.erase_cons_head]

lemma gapMs_fin_one : gapMs (.fin 1) = .fin 210 := by
  have hc : ((LINE_GAP_BASE_MS : ℕ) : ℚ) = 210 := by norm_num [LINE_GAP_BASE_MS]
  rw [gapMs, hc]
  norm_num [normCount, jOrElse, jTruthy, jMax, jMul, jMin]

lemma startStep : doEv domAll init (.start (some (.fin 1))) = runSt 0 0 := by
  simp only [doEv, showProcessingOverlay, cancelOverlaySequence, runOverlaySequence,
    ensureLinesContainer, domAll, init, eq_self_iff_true, if_true,
    Option.getD_some, gapMs_fin_one]
  rfl

lemma charDrive : ∀ (k li i : ℕ), i + k + 1 ≤ (lineChars li).length →
    driveLast domAll k (runSt li i) = runSt li (i + k) := by
  intro k
  induction k with
  | zero => intro li i h; simp [driveLast]
  | succ k ih =>
    intro li i h
    have htask : (runSt li i).tasks.length - 1 = li + 1 := by
      simp [runSt, rafs_length]
    rw [driveLast_succ, htask, charStep li i (by omega), ih li (i + 1) (by omega)]
    congr 1
    omega

lemma lineAdvance (li : ℕ) (h6 : li + 1 < 7) (h0 : 0 < (lineChars li).length)
    (hne : lineChars (li + 1) ≠ []) :
    driveLast domAll ((lineChars li).length + 2) (runSt li 0) = runSt (li + 1) 0 := by
  have hlen : (lineChars li).length + 2 = ((lineChars li).length - 1) + 3 := by omega
  rw [hlen, driveLast_add, charDrive ((lineChars li).length - 1) li 0 (by omega)]
  have h01 : 0 + ((lineChars li).length - 1) = (lineChars li).length - 1 := by omega
  rw [h01, driveLast_succ]
  have ht1 : (runSt li ((lineChars li).length - 1)).tasks.length - 1 = li + 1 := by
    simp [runSt, rafs_length]
  rw [ht1, lineDone li h0, driveLast_succ]
  have ht2 : (gapSt li).tasks.length - 1 = li + 1 := by simp [gapSt, rafs_length]
  rw [ht2, gapStep li h6, driveLast_succ]
  have ht3 : (fadeSt li).tasks.length - 1 = li + 1 := by simp [fadeSt, rafs_length]
  rw [ht3, fadeStep li hne]
  rfl

lemma lastLineDrive :
    driveLast domAll ((lineChars 6).length + 1) (runSt 6 0) = doneSt := by
  have hlen : (lineChars 6).length + 1 = ((lineChars 6).length - 1) + 2 := by decide
  rw [hlen, driveLast_add, charDrive ((lineChars 6).length - 1) 6 0 (by decide)]
  have h01 : 0 + ((lineChars 6).length - 1) = (lineChars 6).length - 1 := by omega
  rw [h01, driveLast_succ]
  have ht1 : (runSt 6 ((lineChars 6).length - 1)).tasks.length - 1 = 7 := by
    simp [runSt, rafs_length]
  rw [ht1, lineDone 6 (by decide), driveLast_succ]
  have ht2 : (gapSt 6).tasks.length - 1 = 7 := by simp [gapSt, rafs_length]
  rw [ht2, gapEnd]
  rfl

lemma c4drive : driveLast domAll 509 (exec domAll [.start (some (.fin 1))]) = doneSt := by
  have hstart : exec domAll [.start (some (.fin 1))] = runSt 0 0 := startStep
  rw [hstart, show (509 : ℕ) = 68 + (76 + (84 + (95 + (45 + (91 + 50))))) from by norm_num,
    driveLast_add,
    show (68 : ℕ) = (lineChars 0).length + 2 from by decide,
    lineAdvance 0 (by decide) (by decide) (by decide),
    driveLast_add,
    show (76 : ℕ) = (lineChars 1).length + 2 from by decide,
    lineAdvance 1 (by decide) (by decide) (by decide),
    driveLast_add,
    show (84 : ℕ) = (lineChars 2).length + 2 from by decide,
    lineAdvance 2 (by decide) (by decide) (by decide),
    driveLast_add,
    show (95 : ℕ) = (lineChars 3).length + 2 from by decide,
    lineAdvance 3 (by decide) (by decide) (by decide),
    driveLast_add,
    show (45 : ℕ) = (lineChars 4).length + 2 from by decide,
    lineAdvance 4 (by decide) (by decide) (by decide),
    driveLast_add,
    show (91 : ℕ) = (lineChars 5).length + 2 from by decide,
    lineAdvance 5 (by decide) (by decide) (by decide),
    show (50 : ℕ) = (lineChars 6).length + 1 from by decide,
    lastLineDrive]

set_option maxRecDepth 10000 in
/-- C4. A start invocation that is never cancelled or superseded
produces exactly `N = 7` full-line reveals, one line at a time, in the
queue's original order: driving every timer of the run started with
`filesCount = 1` (509 timers: one per typed character, inter-line gap and
fade) ends in `doneSt`, whose append history is exactly the characters of
`OVERLAY_LINES[0..6]` in order, each line typed into its own display node
`0..6`; every node ends up holding exactly its source string; afterwards
the run has terminated (only animation-frame callbacks remain pending, no
timer), the overlay is still shown, and `succeed` was never invoked (the
selected-files state is untouched and no settle step ever ran). -/
theorem c4_uncancelled_run_reveals_all_lines :
    driveLast domAll 509 (exec domAll [.start (some (.fin 1))]) = doneSt
    ∧ doneSt.log.reverse
        = (List.range OVERLAY_LINES.length).flatMap
            (fun i => (lineChars i).map (fun c => ⟨2, some i, c⟩))
    ∧ (List.range OVERLAY_LINES.length).map
          (fun i => (getNode doneSt.store i).map (fun dn => dn.text))
        = OVERLAY_LINES.map some
    ∧ doneSt.children = [6]
    ∧ doneSt.tasks = (List.range OVERLAY_LINES.length).map .raf
    ∧ doneSt.hidden = false
    ∧ doneSt.ariaHidden = false
    ∧ doneSt.selectedFiles = init.selectedFiles
    ∧ doneSt.runId = 2 := by
  refine ⟨c4drive, by decide, by decide, rfl, rfl, rfl, rfl, rfl, rfl⟩

lemma c1drive : driveLast domAll 67 (exec domAll [.start (some (.fin 1))]) = fadeSt 0 := by
  have hstart : exec domAll [.start (some (.fin 1))] = runSt 0 0 := startStep
  rw [hstart, show (67 : ℕ) = 65 + 2 from by norm_num, driveLast_add,
    charDrive 65 0 0 (by decide),
    show (0 + 65 : ℕ) = (lineChars 0).length - 1 from by decide,
    driveLast_succ]
  have ht1 : (runSt 0 ((lineChars 0).length - 1)).tasks.length - 1 = 1 := by
    simp [runSt, rafs_length]
  rw [ht1, lineDone 0 (by decide), driveLast_succ]
  have ht2 : (gapSt 0).tasks.length - 1 = 1 := by simp [gapSt, rafs_length]
  rw [ht2, gapStep 0 (by decide)]
  rfl

lemma c1hid_eq : doEv domAll (fadeSt 0) .hide = c1hid := by
  simp [doEv, hideProcessingOverlay, cancelOverlaySequence, fadeSt, c1hid, domAll]

lemma c1post_eq : doEv domAll c1hid (.fire 1) = c1post := by
  rw [show Ev.fire 1 = Ev.fire (rafs 1).length from by rw [rafs_length],
    doEv_fire_last domAll _ (rafs 1) _ rfl]
  simp only [resumeTask, resumeKont, c1hid]
  obtain ⟨c, cs, hc⟩ := List.exists_cons_of_ne_nil (show lineChars 1 ≠ [] from by decide)
  simp only [twStart, hc, twEnter, sched, schedRaf]
  rw [if_neg (show ¬ (2 : ℕ) = 3 from by decide)]
  rw [setNode_append_fresh _ _ _ _ (histStore_keys 1)]
  simp [c1post, curOf]

lemma c1hidB_eq : doEv domAll (runSt 0 0) .hide = c1hidB := by
  simp [doEv, hideProcessingOverlay, cancelOverlaySequence, runSt, c1hidB, domAll]

lemma c1postB_eq : doEv domAll c1hidB (.fire 1) = c1postB := by
  rw [show Ev.fire 1 = Ev.fire (rafs 1).length from by rw [rafs_length],
    doEv_fire_last domAll _ (rafs 1) _ rfl]
  simp only [resumeTask, resumeKont, c1hidB]
  rw [dif_pos (show 0 + 1 < (lineChars 0).length from by decide),
    if_neg (show ¬ (2 : ℕ) = 3 from by decide)]
  simp [c1postB, c1hidB, sched, curOf]

/-- C1, counterexample. The claim says a superseded run, on resuming at
any suspension point, terminates at once with no further DOM mutation and
no further delay.  The code violates both parts.  Scenario A: the run of
identity 2 reaches its fade wait (67 timers), `hide` supersedes it
(identity 3, container emptied, overlay hidden); the superseded fade-wait
callback — which performs no identity check — still removes the old node,
attaches a fresh empty `.status-line` node with the caret span inside to
the cleared container, and schedules an animation frame plus a further
(gap) timer.  Scenario B: a run superseded during its first character delay
appends nothing, but `typewriterLine`'s return still lets
`runOverlaySequence` schedule one further inter-line gap timer instead of
terminating at once. -/
theorem c1_stale_resume_cex :
    driveLast domAll 67 (exec domAll [.start (some (.fin 1))]) = fadeSt 0
    ∧ doEv domAll (fadeSt 0) .hide = c1hid
    ∧ c1hid.runId = 3
    ∧ c1hid.tasks.getD 1 (.raf 0)
        = .timer (.fin ((LINE_FADE_MS : ℕ) : ℚ)) (.fadeWait 2 (.fin 210) 0 1)
    ∧ c1hid.children = [] ∧ c1hid.hidden = true
    ∧ doEv domAll c1hid (.fire 1) = c1post
    ∧ c1post.children = [1]
    ∧ getNode c1post.store 1 = some ⟨"", true, false, false⟩
    ∧ c1post.tasks = rafs 1 ++ [.raf 1] ++ [.timer (.fin 210) (.gapWait 2 (.fin 210) (some 1) 1)]
    ∧ doEv domAll (runSt 0 0) .hide = c1hidB
    ∧ c1hidB.runId = 3
    ∧ doEv domAll c1hidB (.fire 1) = c1postB
    ∧ c1postB.tasks = rafs 1 ++ [.timer (.fin 210) (.gapWait 2 (.fin 210) (some 0) 0)]
    ∧ c1postB.log = c1hidB.log
    ∧ c1postB.children = c1hidB.children ∧ c1postB.store = c1hidB.store := by
  refine ⟨c1drive, c1hid_eq, rfl, rfl, rfl, rfl, c1post_eq, rfl, by decide, rfl,
    c1hidB_eq, rfl, c1postB_eq, rfl, rfl, rfl, rfl⟩

lemma runOverlaySequence_runId_ge (d : Dom) (c : JNum) (s : St) :
    s.runId ≤ (runOverlaySequence d c s).runId := by
  unfold runOverlaySequence
  split
  · exact le_refl _
  · dsimp only
    split <;> split <;> (try rw [twStart_runId]) <;> simp

lemma showProcessingOverlay_runId_ge (d : Dom) (c : Option JNum) (s : St) :
    s.runId ≤ (showProcessingOverlay d c s).runId := by
  unfold showProcessingOverlay
  split
  · refine le_trans (show s.runId ≤ s.runId + 1 by omega)
      (le_trans (le_of_eq ?_) (runOverlaySequence_runId_ge _ _ _))
    dsimp only
    split <;> rfl
  · exact le_refl _

lemma showProcessingSuccess_runId_ge (d : Dom) (s : St) :
    s.runId ≤ (showProcessingSuccess d s).runId := by
  unfold showProcessingSuccess
  split
  · simp only [hide_runId, cancel_runId]
    omega
  · dsimp only
    split <;> rw [twStartS_runId] <;> simp

lemma resumeKont_runId_ge (d : Dom) (k : Kont) (s : St) :
    s.runId ≤ (resumeKont d k s).runId := by
  cases k with
  | fadeWait rid gap oldN li =>
    simp only [resumeKont]
    rw [twStart_runId]
    simp
  | charWait rid gap tgt li i =>
    simp only [resumeKont]
    split
    · split <;> simp
    · simp
  | gapWait rid gap cur li =>
    simp only [resumeKont]
    split
    · split
      · rcases cur with _ | n
        · rw [twStart_runId]
        · simp
      · exact le_refl _
    · exact le_refl _
  | sCharWait rid tgt i =>
    simp only [resumeKont]
    split
    · split <;> simp
    · simp
  | settleWait =>
    simp only [resumeKont, resetTrainingType, clearFilesAfterSuccess]
    simp

lemma doEv_runId_ge (d : Dom) (s : St) (e : Ev) :
    s.runId ≤ (doEv d s e).runId := by
  cases e with
  | start c => exact showProcessingOverlay_runId_ge d c s
  | succeed => exact showProcessingSuccess_runId_ge d s
  | hide => simp [doEv]
  | fire i =>
    simp only [doEv]
    split
    · cases h : (s.tasks.getD i (.raf 0)) with
      | timer ms k =>
        simp only [resumeTask]
        exact resumeKont_runId_ge d k { s with tasks := s.tasks.eraseIdx i }
      | raf n => simp [resumeTask]
    · exact le_refl _

lemma start_captures (b2 b4 b5 : Bool) (c : Option JNum) (s : St) :
    (doEv ⟨true, b2, true, b4, b5⟩ s (.start c)).runId = s.runId + 2
    ∧ (doEv ⟨true, b2, true, b4, b5⟩ s (.start c)).tasks
        = s.tasks ++ [.raf s.nextNode]
          ++ [.timer (.fin ((typeDelay ((lineChars 0).getD 0 ' ') : ℕ) : ℚ))
               (.charWait (s.runId + 2) (gapMs (c.getD (.fin 1))) (.el s.nextNode) 0 0)] := by
  obtain ⟨ch, cs, hc⟩ := List.exists_cons_of_ne_nil (show lineChars 0 ≠ [] from by decide)
  rcases b5 <;>
    simp [doEv, showProcessingOverlay, cancelOverlaySequence, runOverlaySequence,
      ensureLinesContainer, twStart, hc, twEnter, appendChar, sched, schedRaf]

lemma twStart_tasks_length (rid : ℕ) (gap : JNum) (tgt : Tgt) (li : ℕ) (s : St) :
    (twStart rid gap tgt li s).tasks.length = s.tasks.length + 1 := by
  unfold twStart
  split
  · simp
  · split <;> simp

/-- C7. The run identity is monotone: no event-loop step (entry point or
callback firing) ever decreases `overlayRunId`, so it is never reset.  A
start invocation on a page with the overlay and multi-node container
increments it (by 2: the cancel and the capture `++overlayRunId`) and
captures the new value inside the continuation of the run it schedules; a
suspended run aborts at its loop-top (gap) check point exactly when the
current counter differs from its captured value — unchanged state on
mismatch, the next step scheduled on match — and its per-character check
appends a character exactly when the counter still matches, nothing
otherwise. -/
theorem c7_run_identity_monotone :
    (∀ (d : Dom) (s : St) (e : Ev), s.runId ≤ (doEv d s e).runId)
    ∧ (∀ (b2 b4 b5 : Bool) (c : Option JNum) (s : St),
        (doEv ⟨true, b2, true, b4, b5⟩ s (.start c)).runId = s.runId + 2
        ∧ (doEv ⟨true, b2, true, b4, b5⟩ s (.start c)).tasks
            = s.tasks ++ [.raf s.nextNode]
              ++ [.timer (.fin ((typeDelay ((lineChars 0).getD 0 ' ') : ℕ) : ℚ))
                   (.charWait (s.runId + 2) (gapMs (c.getD (.fin 1))) (.el s.nextNode) 0 0)])
    ∧ (∀ (d : Dom) (s : St) (rid : ℕ) (gap : JNum) (cur : Option ℕ) (li : ℕ),
        li + 1 < OVERLAY_LINES.length →
        ((rid ≠ s.runId → resumeKont d (.gapWait rid gap cur li) s = s)
         ∧ (rid = s.runId → (resumeKont d (.gapWait rid gap cur li) s).tasks.length
             = s.tasks.length + 1)))
    ∧ (∀ (d : Dom) (s : St) (rid : ℕ) (gap : JNum) (tgt : Tgt) (li i : ℕ),
        i + 1 < (lineChars li).length →
        ((rid ≠ s.runId → (resumeKont d (.charWait rid gap tgt li i) s).log = s.log)
         ∧ (rid = s.runId → (resumeKont d (.charWait rid gap tgt li i) s).log
             = ⟨rid, tgtNode tgt, (lineChars li).getD (i + 1) ' '⟩ :: s.log))) := by
  refine ⟨doEv_runId_ge, start_captures, ?_, ?_⟩
  · intro d s rid gap cur li h
    constructor
    · intro hne
      simp only [resumeKont]
      rw [if_pos h, if_neg hne]
    · intro heq
      simp only [resumeKont]
      rw [if_pos h, if_pos heq]
      rcases cur with _ | n
      · rw [twStart_tasks_length]
      · simp
  · intro d s rid gap tgt li i h
    constructor
    · intro hne
      simp only [resumeKont]
      rw [dif_pos h, if_neg hne]
      simp
    · intro heq
      simp only [resumeKont]
      rw [dif_pos h, if_pos heq,
        list_getD_eq_get (lineChars li) (i + 1) ' ' h]
      simp

/-- Witness for `c7_run_identity_monotone`. -/
theorem c7_run_identity_monotone_witness :
    resumeKont domAll (.gapWait 1 (.fin 210) (some 0) 0) init = init
    ∧ (resumeKont domAll (.charWait 0 (.fin 210) (.el 0) 0 0) init).log
        = [⟨0, some 0, (lineChars 0).getD 1 ' '⟩] := by
  constructor
  · exact (c7_run_identity_monotone.2.2.1 domAll init 1 (.fin 210) (some 0) 0 (by decide)).1 (by decide)
  · have h := (c7_run_identity_monotone.2.2.2 domAll init 0 (.fin 210) (.el 0) 0 0 (by decide)).2 rfl
    simpa using h

lemma inv_init : Inv init := by
  refine ⟨?_, ?_, ?_, ?_⟩ <;> simp [init]

lemma mem_setNode_keys (st : List (ℕ × DNode)) (n : ℕ) (f : DNode → DNode)
    (m : ℕ) (h : ∀ p ∈ st, p.1 < m) : ∀ p ∈ setNode st n f, p.1 < m := by
  intro p hp
  simp only [setNode, List.mem_map] at hp
  obtain ⟨q, hq, hpq⟩ := hp
  have hqm := h q hq
  by_cases hqn : q.1 = n
  · simp only [hqn, if_pos rfl] at hpq
    rw [← hpq]
    simpa [hqn] using hqm
  · simp only [if_neg hqn] at hpq
    rw [← hpq]
    exact hqm

lemma inv_sched (s : St) (ms : JNum) (k : Kont) (hk : kontRid k ≤ s.runId) :
    Inv s → Inv (sched s ms k) := by
  rintro ⟨h1, h2, h3, h4⟩
  refine ⟨?_, h2, h3, h4⟩
  intro τ hτ
  simp only [sched_tasks, List.mem_append, List.mem_singleton] at hτ
  rcases hτ with hτ | rfl
  · exact h1 τ hτ
  · simpa [taskRid]

lemma inv_schedRaf (s : St) (n : ℕ) : Inv s → Inv (schedRaf s n) := by
  rintro ⟨h1, h2, h3, h4⟩
  refine ⟨?_, h2, h3, h4⟩
  intro τ hτ
  simp only [schedRaf_tasks, List.mem_append, List.mem_singleton] at hτ
  rcases hτ with hτ | rfl
  · exact h1 τ hτ
  · simp [taskRid]

lemma inv_twEnter (s : St) (tgt : Tgt) : Inv s → Inv (twEnter s tgt) := by
  rintro ⟨h1, h2, h3, h4⟩
  cases tgt with
  | el n =>
    refine ⟨h1, h2, h3, ?_⟩
    simp only [twEnter]
    exact mem_setNode_keys _ _ _ _ h4
  | sub cid => exact ⟨h1, h2, h3, h4⟩

lemma inv_caretOff (s : St) (tgt : Tgt) : Inv s → Inv (caretOff s tgt) := by
  rintro ⟨h1, h2, h3, h4⟩
  cases tgt with
  | el n =>
    refine ⟨h1, h2, h3, ?_⟩
    simp only [caretOff]
    exact mem_setNode_keys _ _ _ _ h4
  | sub cid => exact ⟨h1, h2, h3, h4⟩

lemma inv_appendChar (s : St) (rid : ℕ) (tgt : Tgt) (c : Char)
    (hr : rid = s.runId) : Inv s → Inv (appendChar s rid tgt c) := by
  rintro ⟨h1, h2, h3, h4⟩
  have hlog : ∀ p ∈ (⟨rid, tgtNode tgt, c⟩ : LogE) :: s.log, p.rid ≤ s.runId := by
    intro p hp
    rcases List.mem_cons.mp hp with rfl | hp
    · simpa using le_of_eq hr
    · exact h2 p hp
  have hchain : ((⟨rid, tgtNode tgt, c⟩ : LogE) :: s.log).Chain'
      (fun a b => b.rid ≤ a.rid) := by
    rw [List.chain'_cons']
    refine ⟨?_, h3⟩
    intro b hb
    have hbl : b ∈ s.log := List.mem_of_mem_head? hb
    simpa [hr] using h2 b hbl
  cases tgt with
  | el n =>
    refine ⟨h1, by simpa [appendChar] using hlog,
      by simpa [appendChar] using hchain, ?_⟩
    simp only [appendChar]
    exact mem_setNode_keys _ _ _ _ h4
  | sub cid =>
    exact ⟨h1, by simpa [appendChar] using hlog,
      by simpa [appendChar] using hchain, h4⟩

lemma inv_twStart (rid : ℕ) (gap : JNum) (tgt : Tgt) (li : ℕ) (s : St)
    (hr : rid ≤ s.runId) : Inv s → Inv (twStart rid gap tgt li s) := by
  intro h
  unfold twStart
  split
  · exact inv_sched _ _ _ (by simpa [kontRid]) (inv_caretOff _ _ (inv_twEnter _ _ h))
  · split
    case isTrue heq =>
      refine inv_sched _ _ _ (by simpa [kontRid]) ?_
      exact inv_appendChar _ _ _ _ (by simpa using heq) (inv_twEnter _ _ h)
    case isFalse =>
      exact inv_sched _ _ _ (by simpa [kontRid]) (inv_twEnter _ _ h)

lemma inv_twStartS (rid : ℕ) (tgt : Tgt) (s : St)
    (hr : rid ≤ s.runId) : Inv s → Inv (twStartS rid tgt s) := by
  intro h
  unfold twStartS
  split
  · exact inv_sched _ _ _ (by simp [kontRid]) (inv_caretOff _ _ (inv_twEnter _ _ h))
  · split
    case isTrue heq =>
      refine inv_sched _ _ _ (by simpa [kontRid]) ?_
      exact inv_appendChar _ _ _ _ (by simpa using heq) (inv_twEnter _ _ h)
    case isFalse =>
      exact inv_sched _ _ _ (by simp [kontRid]) (inv_twEnter _ _ h)

lemma inv_relaxRunId (s : St) (m : ℕ) (hm : s.runId ≤ m) :
    Inv s → Inv { s with runId := m } := by
  rintro ⟨h1, h2, h3, h4⟩
  exact ⟨fun τ hτ => le_trans (h1 τ hτ) hm, fun p hp => le_trans (h2 p hp) hm, h3, h4⟩

lemma inv_cancel (d : Dom) (s : St) : Inv s → Inv (cancelOverlaySequence d s) := by
  intro h
  have h2 := inv_relaxRunId s (s.runId + 1) (by omega) h
  exact h2

lemma inv_hide (d : Dom) (s : St) : Inv s → Inv (hideProcessingOverlay d s) := by
  intro h
  unfold hideProcessingOverlay
  split
  · exact inv_cancel d s h
  · exact inv_cancel d s h

lemma inv_frame (s t : St) (ht : t.tasks = s.tasks) (hl : t.log = s.log)
    (hs : t.store = s.store) (hn : t.nextNode = s.nextNode)
    (hr : s.runId ≤ t.runId) (h : Inv s) : Inv t := by
  obtain ⟨h1, h2, h3, h4⟩ := h
  refine ⟨?_, ?_, ?_, ?_⟩
  · intro τ hτ
    rw [ht] at hτ
    exact le_trans (h1 τ hτ) hr
  · intro p hp
    rw [hl] at hp
    exact le_trans (h2 p hp) hr
  · rw [hl]
    exact h3
  · intro p hp
    rw [hs] at hp
    rw [hn]
    exact h4 p hp

lemma inv_createNode (s : St) (g : ℕ) (cs : List ℕ) (v : DNode) (hg : s.runId ≤ g)
    (h : Inv s) :
    Inv { runId := g, nextNode := s.nextNode + 1,
          store := s.store ++ [(s.nextNode, v)],
          children := cs, subText := s.subText, subCarets := s.subCarets,
          nextCaret := s.nextCaret, dotsText := s.dotsText, hidden := s.hidden,
          ariaHidden := s.ariaHidden, titleHidden := s.titleHidden,
          selectedFiles := s.selectedFiles, trainType := s.trainType,
          tasks := s.tasks, log := s.log } := by
  obtain ⟨h1, h2, h3, h4⟩ := h
  refine ⟨fun τ ht => le_trans (h1 τ ht) hg, fun p hp => le_trans (h2 p hp) hg, h3, ?_⟩
  intro p hp
  rcases List.mem_append.mp hp with hp | hp
  · exact lt_trans (h4 p hp) (Nat.lt_succ_self _)
  · rw [List.mem_singleton.mp hp]
    exact Nat.lt_succ_self _

lemma inv_runOverlaySequence (d : Dom) (c : JNum) (s : St) :
    Inv s → Inv (runOverlaySequence d c s) := by
  intro h
  unfold runOverlaySequence
  split
  · exact h
  · dsimp only
    split
    · split
      · refine inv_twStart _ _ _ _ _ (le_refl _) (inv_schedRaf _ _ ?_)
        exact inv_createNode s (s.runId + 1) _ _ (Nat.le_succ _) h
      · exact inv_frame s _ rfl rfl rfl rfl (Nat.le_succ _) h
    · split
      · refine inv_twStart _ _ _ _ _ (le_refl _) ?_
        exact inv_frame s _ rfl rfl rfl rfl (Nat.le_succ _) h
      · exact inv_frame s _ rfl rfl rfl rfl (Nat.le_succ _) h

lemma inv_showProcessingOverlay (d : Dom) (c : Option JNum) (s : St) :
    Inv s → Inv (showProcessingOverlay d c s) := by
  intro h
  unfold showProcessingOverlay
  split
  · dsimp only
    split
    · refine inv_runOverlaySequence _ _ _ ?_
      exact inv_frame s _ rfl rfl rfl rfl (Nat.le_succ _) h
    · refine inv_runOverlaySequence _ _ _ ?_
      exact inv_frame s _ rfl rfl rfl rfl (Nat.le_succ _) h
  · exact h

lemma inv_showProcessingSuccess (d : Dom) (s : St) :
    Inv s → Inv (showProcessingSuccess d s) := by
  intro h
  unfold showProcessingSuccess
  split
  · exact inv_hide _ _ (inv_cancel _ _ h)
  · dsimp only
    split
    · refine inv_twStartS _ _ _ (le_refl _) ?_
      exact inv_createNode s (s.runId + 1)
        ((if d.hasLines = true then [] else s.children) ++ [s.nextNode])
        ⟨"", false, true, false⟩ (Nat.le_succ _) h
    · refine inv_twStartS _ _ _ (le_refl _) ?_
      exact inv_frame s _ rfl rfl rfl rfl (Nat.le_succ _) h

lemma inv_resumeKont (d : Dom) (k : Kont) (s : St) (hk : kontRid k ≤ s.runId) :
    Inv s → Inv (resumeKont d k s) := by
  intro h
  cases k with
  | fadeWait rid gap oldN li =>
    simp only [resumeKont]
    refine inv_twStart _ _ _ _ _ (by simpa [kontRid] using hk) (inv_schedRaf _ _ ?_)
    exact inv_createNode { s with children := s.children.erase oldN } s.runId _ _
      (le_refl _) h
  | charWait rid gap tgt li i =>
    simp only [resumeKont]
    split
    · split
      case isTrue heq =>
        refine inv_sched _ _ _ (by simpa [kontRid] using hk) ?_
        exact inv_appendChar _ _ _ _ heq h
      case isFalse =>
        exact inv_sched _ _ _ (by simpa [kontRid] using hk) h
    · exact inv_sched _ _ _ (by simpa [kontRid] using hk) (inv_caretOff _ _ h)
  | gapWait rid gap cur li =>
    simp only [resumeKont]
    split
    · split
      · rcases cur with _ | n
        · refine inv_twStart _ _ _ _ _ (by simpa [kontRid] using hk) ?_
          exact inv_frame s _ rfl rfl rfl rfl (le_refl _) h
        · refine inv_sched _ _ _ (by simpa [kontRid] using hk) ?_
          obtain ⟨h1, h2, h3, h4⟩ := h
          refine ⟨h1, h2, h3, ?_⟩
          intro p hp
          exact mem_setNode_keys s.store n (fun dn => ⟨dn.text, dn.caret, false, true⟩) s.nextNode h4 p hp
      · exact h
    · exact h
  | sCharWait rid tgt i =>
    simp only [resumeKont]
    split
    · split
      case isTrue heq =>
        refine inv_sched _ _ _ (by simpa [kontRid] using hk) ?_
        exact inv_appendChar _ _ _ _ heq h
      case isFalse =>
        exact inv_sched _ _ _ (by simp [kontRid]) h
    · exact inv_sched _ _ _ (by simp [kontRid]) (inv_caretOff _ _ h)
  | settleWait =>
    simp only [resumeKont]
    exact inv_hide _ _ h

lemma list_getD_mem {α : Type} (l : List α) (i : ℕ) (d : α) (h : i < l.length) :
    l.getD i d ∈ l := by
  rw [list_getD_eq_get l i d h]
  exact List.get_mem l i h

lemma inv_doEv (d : Dom) (s : St) (e : Ev) : Inv s → Inv (doEv d s e) := by
  intro h
  cases e with
  | start c => exact inv_showProcessingOverlay d c s h
  | succeed => exact inv_showProcessingSuccess d s h
  | hide => exact inv_hide d s h
  | fire i =>
    simp only [doEv]
    split
    case isTrue hlt =>
      have hmem : s.tasks.getD i (.raf 0) ∈ s.tasks := list_getD_mem _ _ _ hlt
      have hrid : taskRid (s.tasks.getD i (.raf 0)) ≤ s.runId := h.1 _ hmem
      have herase : Inv { s with tasks := s.tasks.eraseIdx i } := by
        obtain ⟨h1, h2, h3, h4⟩ := h
        refine ⟨?_, h2, h3, h4⟩
        intro τ hτ
        exact h1 τ ((List.eraseIdx_sublist s.tasks i).subset hτ)
      cases hτ : (s.tasks.getD i (.raf 0)) with
      | timer ms k =>
        simp only [resumeTask]
        refine inv_resumeKont d k _ ?_ herase
        rw [hτ] at hrid
        simpa [taskRid] using hrid
      | raf n =>
        simp only [resumeTask]
        obtain ⟨h1, h2, h3, h4⟩ := herase
        refine ⟨h1, h2, h3, ?_⟩
        intro p hp
        exact mem_setNode_keys s.store n (fun dn => ⟨dn.text, dn.caret, true, dn.hideCls⟩) s.nextNode h4 p hp
    case isFalse => exact h

lemma inv_execFrom (d : Dom) (es : List Ev) (s : St) (h : Inv s) :
    Inv (execFrom d s es) := by
  induction es generalizing s with
  | nil => exact h
  | cons e es ih => exact ih (doEv d s e) (inv_doEv d s e h)

lemma show_runId_succ_ge (d : Dom) (c : Option JNum) (s : St)
    (hov : d.hasOverlay = true) :
    s.runId + 1 ≤ (showProcessingOverlay d c s).runId := by
  unfold showProcessingOverlay
  rw [if_pos hov]
  refine le_trans (le_of_eq ?_) (runOverlaySequence_runId_ge _ _ _)
  dsimp only
  split <;> rfl

/-- C2. Superseded runs never interleave their visible output with a
newer run's: in every execution (any event sequence from the initial
state), the ghost append log is ordered by run identity — once a newer
run's character appears, no older run's character is ever appended after it
(with monotone identities this is exactly "no character from a superseded
run after the newer run's first mutation").  Moreover a start call on a
page with the overlay container invalidates every previously pending
callback strictly before its own first mutation: its very first synchronous
step raises the identity above that of every pending callback. -/
theorem c2_no_superseded_interleaving :
    (∀ (d : Dom) (es : List Ev),
        ((exec d es).log.reverse).Chain' (fun a b => a.rid ≤ b.rid))
    ∧ (∀ (d : Dom) (s : St) (c : Option JNum), Inv s → d.hasOverlay = true →
        ∀ τ ∈ s.tasks, taskRid τ < (doEv d s (.start c)).runId) := by
  constructor
  · intro d es
    have h := inv_execFrom d es init inv_init
    rw [List.chain'_reverse]
    exact h.2.2.1
  · intro d s c hInv hov τ hτ
    have h1 := hInv.1 τ hτ
    have h2 := show_runId_succ_ge d c s hov
    show taskRid τ < (showProcessingOverlay d c s).runId
    omega

/-- Witness for `c2_no_superseded_interleaving`. -/
theorem c2_no_superseded_interleaving_witness :
    taskRid (.timer (.fin 60) (.charWait 1 (.fin 210) (.el 0) 0 0))
      < (doEv domAll c2wit (.start (some (.fin 2)))).runId := by
  refine c2_no_superseded_interleaving.2 domAll c2wit (some (.fin 2)) ?_ rfl _ ?_
  · refine ⟨?_, ?_, ?_, ?_⟩ <;> decide
  · decide

lemma getNode_append_fresh (st : List (ℕ × DNode)) (n : ℕ) (v : DNode)
    (h : ∀ p ∈ st, p.1 ≠ n) : getNode (st ++ [(n, v)]) n = some v := by
  induction st with
  | nil => simp [getNode]
  | cons q qs ih =>
    have hq : (q.1 == n) = false := by
      simpa using h q (List.mem_cons_self q qs)
    simp only [List.cons_append, getNode, List.find?]
    rw [hq]
    exact ih (fun p hp => h p (List.mem_cons_of_mem q hp))

lemma succ_start (s : St) (hst : ∀ p ∈ s.store, p.1 < s.nextNode) :
    doEv domAll s .succeed = succSt s 0 := by
  have hfr : ∀ p ∈ s.store, p.1 ≠ s.nextNode := fun p hp => Nat.ne_of_lt (hst p hp)
  obtain ⟨c, cs, hc⟩ := List.exists_cons_of_ne_nil (show msgChars ≠ [] from by decide)
  have hd : successMsg.data = c :: cs := hc
  simp only [doEv, showProcessingSuccess, cancelOverlaySequence, ensureLinesContainer,
    domAll, eq_self_iff_true, if_true]
  simp only [twStartS, show successMsg.toList = c :: cs from hc, twEnter, appendChar,
    sched, eq_self_iff_true, if_true]
  rw [setNode_append_fresh _ _ _ _ hfr, setNode_append_fresh _ _ _ _ hfr]
  simp [succSt, msgChars, hd, String.push]

lemma succ_charStep (s : St) (hst : ∀ p ∈ s.store, p.1 < s.nextNode)
    (i : ℕ) (h : i + 1 < msgChars.length) :
    doEv domAll (succSt s i) (.fire s.tasks.length) = succSt s (i + 1) := by
  have hfr : ∀ p ∈ s.store, p.1 ≠ s.nextNode := fun p hp => Nat.ne_of_lt (hst p hp)
  rw [doEv_fire_last domAll (succSt s i) s.tasks
    (.timer (.fin ((typeDelay (msgChars.getD i ' ') : ℕ) : ℚ))
      (.sCharWait (s.runId + 1) (.el s.nextNode) i)) rfl]
  simp only [resumeTask, resumeKont]
  rw [dif_pos (show i + 1 < successMsg.toList.length from h),
    if_pos (show s.runId + 1 = (succSt s i).runId by rfl)]
  simp only [sched, appendChar, succSt, msgChars]
  rw [setNode_append_fresh _ _ _ _ hfr]
  rw [list_getD_eq_get successMsg.toList (i + 1) ' ' h]
  have htake := List.take_concat_get successMsg.toList (i + 1) h
  simp only [String.push, List.get_eq_getElem, ← htake, List.concat_eq_append,
    List.reverse_append, List.reverse_cons, List.reverse_nil, List.nil_append,
    List.map_append, List.map_cons, List.map_nil, List.singleton_append,
    List.cons_append, List.append_assoc]

lemma succ_finish (s : St) (hst : ∀ p ∈ s.store, p.1 < s.nextNode) :
    doEv domAll (succSt s (msgChars.length - 1)) (.fire s.tasks.length) = settleSt s := by
  have hfr : ∀ p ∈ s.store, p.1 ≠ s.nextNode := fun p hp => Nat.ne_of_lt (hst p hp)
  have hlen : msgChars.length = 63 := rfl
  have hlen2 : successMsg.toList.length = 63 := rfl
  rw [doEv_fire_last domAll (succSt s (msgChars.length - 1)) s.tasks
    (.timer (.fin ((typeDelay (msgChars.getD (msgChars.length - 1) ' ') : ℕ) : ℚ))
      (.sCharWait (s.runId + 1) (.el s.nextNode) (msgChars.length - 1))) rfl]
  simp only [resumeTask, resumeKont]
  rw [dif_neg (by omega)]
  simp only [caretOff, sched, succSt, settleSt]
  rw [setNode_append_fresh _ _ _ _ hfr]
  have hlen3 : msgChars.length - 1 + 1 = msgChars.length := by omega
  rw [hlen3, List.take_length, show String.mk msgChars = successMsg from rfl]

lemma succ_settle (s : St) :
    doEv domAll (settleSt s) (.fire s.tasks.length) = succFinalSt s := by
  rw [doEv_fire_last domAll (settleSt s) s.tasks (.timer (.fin 240) .settleWait) rfl]
  simp only [resumeTask, resumeKont, resetTrainingType, hideProcessingOverlay,
    clearFilesAfterSuccess, cancelOverlaySequence, settleSt, succFinalSt, domAll,
    eq_self_iff_true, if_true]

lemma succDrive : ∀ (k : ℕ) (s : St), (∀ p ∈ s.store, p.1 < s.nextNode) →
    ∀ i : ℕ, i + k + 1 ≤ msgChars.length →
    driveLast domAll k (succSt s i) = succSt s (i + k) := by
  intro k
  induction k with
  | zero => intro s hst i h; simp [driveLast]
  | succ k ih =>
    intro s hst i h
    have htask : (succSt s i).tasks.length - 1 = s.tasks.length := by simp [succSt]
    rw [driveLast_succ, htask, succ_charStep s hst i (by omega)]
    have := ih s hst (i + 1) (by omega)
    rw [this, Nat.add_assoc, Nat.add_comm 1 k]

/-- C3. `showProcessingSuccess` on any reachable state cancels the active
run (identity bump makes every previously pending callback stale), types the
single completion message in full into one fresh node, schedules a 240 ms
settle delay with the message fully revealed and the overlay still in its
previous visibility, and on the settle callback hides the overlay, empties
the narration container, clears the selected files and resets the training
type. -/
theorem c3_succeed_supersedes_and_completes (s : St)
    (hst : ∀ p ∈ s.store, p.1 < s.nextNode) :
    doEv domAll s .succeed = succSt s 0
    ∧ (succSt s 0).runId = s.runId + 1
    ∧ (∀ τ ∈ s.tasks, taskRid τ ≤ s.runId → taskRid τ < (succSt s 0).runId)
    ∧ driveLast domAll successMsg.length (succSt s 0) = settleSt s
    ∧ getNode (settleSt s).store s.nextNode = some ⟨successMsg, false, true, false⟩
    ∧ (settleSt s).log
      = msgChars.reverse.map (fun c => ⟨s.runId + 1, some s.nextNode, c⟩) ++ s.log
    ∧ (settleSt s).tasks = s.tasks ++ [.timer (.fin 240) .settleWait]
    ∧ (settleSt s).hidden = s.hidden
    ∧ driveLast domAll (successMsg.length + 1) (succSt s 0) = succFinalSt s
    ∧ (succFinalSt s).hidden = true ∧ (succFinalSt s).ariaHidden = true
    ∧ (succFinalSt s).children = [] ∧ (succFinalSt s).selectedFiles = 0
    ∧ (succFinalSt s).trainType = "" ∧ (succFinalSt s).runId = s.runId + 2 := by
  have hfr : ∀ p ∈ s.store, p.1 ≠ s.nextNode := fun p hp => Nat.ne_of_lt (hst p hp)
  have htask62 : (succSt s 62).tasks.length - 1 = s.tasks.length := by simp [succSt]
  have htaskStl : (settleSt s).tasks.length - 1 = s.tasks.length := by simp [settleSt]
  have h63 : driveLast domAll 63 (succSt s 0) = settleSt s := by
    rw [show (63 : ℕ) = 62 + 1 from rfl, driveLast_add,
      succDrive 62 s hst 0 (by decide), driveLast_succ, htask62,
      show (0 : ℕ) + 62 = 62 from rfl,
      show (62 : ℕ) = msgChars.length - 1 from rfl, succ_finish s hst]
    rfl
  refine ⟨succ_start s hst, rfl, ?_, ?_, ?_, rfl, rfl, rfl, ?_, rfl, rfl, rfl, rfl,
    rfl, rfl⟩
  · intro τ hτ hle
    show taskRid τ < s.runId + 1
    omega
  · rw [show successMsg.length = 63 from rfl]
    exact h63
  · exact getNode_append_fresh s.store s.nextNode _ hfr
  · rw [show successMsg.length + 1 = 63 + 1 from rfl, driveLast_add, h63,
      driveLast_succ, htaskStl, succ_settle s]
    rfl

/-- Witness for C3: at the initial state, the store-key hypothesis holds
(vacuously) and the cancellation bump is visible. -/
theorem c3_succeed_supersedes_and_completes_witness :
    (∀ p ∈ init.store, p.1 < init.nextNode) ∧ (succSt init 0).runId = init.runId + 1 :=
  ⟨by decide, (c3_succeed_supersedes_and_completes init (by decide)).2.1⟩

/-- C1, amended. The identity re-checks that do exist behave as the
claim says: a superseded run resuming at the inter-line gap wait terminates
at once — the state is completely unchanged, no mutation, nothing scheduled;
a superseded reveal resuming at a character delay (with characters left)
appends nothing and mutates nothing, but schedules exactly one further
inter-line gap timer (whose own firing, by the first part, then terminates
the run for good); and likewise for the success-message reveal, which
schedules its settle timer.  The fade wait, by the counterexample, has no
such protection. -/
theorem c1_stale_checkpoints_amended :
    (∀ (d : Dom) (s : St) (rid : ℕ) (gap : JNum) (cur : Option ℕ) (li : ℕ),
        rid ≠ s.runId → resumeKont d (.gapWait rid gap cur li) s = s)
    ∧ (∀ (d : Dom) (s : St) (rid : ℕ) (gap : JNum) (tgt : Tgt) (li i : ℕ),
        rid ≠ s.runId → i + 1 < (lineChars li).length →
        resumeKont d (.charWait rid gap tgt li i) s
          = sched s gap (.gapWait rid gap (curOf tgt) li))
    ∧ (∀ (d : Dom) (s : St) (rid : ℕ) (tgt : Tgt) (i : ℕ),
        rid ≠ s.runId → i + 1 < successMsg.toList.length →
        resumeKont d (.sCharWait rid tgt i) s = sched s (.fin 240) .settleWait) := by
  refine ⟨?_, ?_, ?_⟩
  · intro d s rid gap cur li h
    simp only [resumeKont]
    rcases Nat.lt_or_ge (li + 1) OVERLAY_LINES.length with h1 | h1
    · rw [if_pos h1, if_neg h]
    · rw [if_neg (Nat.not_lt.mpr h1)]
  · intro d s rid gap tgt li i h hlen
    simp only [resumeKont]
    rw [dif_pos hlen, if_neg h]
  · intro d s rid tgt i h hlen
    simp only [resumeKont]
    rw [dif_pos hlen, if_neg h]

/-- Witness for `c1_stale_checkpoints_amended`. -/
theorem c1_stale_checkpoints_amended_witness :
    resumeKont domAll (.gapWait 1 (.fin 210) (some 0) 0) init = init
    ∧ resumeKont domAll (.charWait 1 (.fin 210) (.el 0) 0 0) init
        = sched init (.fin 210) (.gapWait 1 (.fin 210) (some 0) 0)
    ∧ resumeKont domAll (.sCharWait 1 (.el 0) 0) init
        = sched init (.fin 240) .settleWait :=
  ⟨c1_stale_checkpoints_amended.1 domAll init 1 (.fin 210) (some 0) 0 (by decide),
   c1_stale_checkpoints_amended.2.1 domAll init 1 (.fin 210) (.el 0) 0 0
     (by decide) (by decide),
   c1_stale_checkpoints_amended.2.2 domAll init 1 (.el 0) 0
     (by decide) (by decide)⟩

/-! ## Theorems about the pacing arithmetic -/

lemma base_cast : ((LINE_GAP_BASE_MS : ℕ) : ℚ) = 210 := by
  norm_num [LINE_GAP_BASE_MS]

lemma normCount_of_one_le (q : ℚ) (hq : 1 ≤ q) : normCount (.fin q) = .fin q := by
  have hne : ¬ q = 0 := by intro h; rw [h] at hq; norm_num at hq
  simp [normCount, jOrElse, jTruthy, jMax, hne, hq]

lemma normCount_small (q : ℚ) (hne : q ≠ 0) (hle : q ≤ 1) :
    normCount (.fin q) = .fin 1 := by
  rcases eq_or_lt_of_le hle with h | h
  · subst h
    norm_num [normCount, jOrElse, jTruthy, jMax]
  · have hn : ¬ (1 : ℚ) ≤ q := not_le.mpr h
    simp [normCount, jOrElse, jTruthy, jMax, hne, hn]

lemma normCount_zero : normCount (.fin 0) = .fin 1 := by
  norm_num [normCount, jOrElse, jTruthy, jMax]

lemma normCount_nan : normCount .nan = .fin 1 := by
  norm_num [normCount, jOrElse, jTruthy, jMax]

lemma normCount_negInf : normCount .negInf = .fin 1 := by
  norm_num [normCount, jOrElse, jTruthy, jMax]

lemma gapMs_of_norm_one (x : JNum) (h : normCount x = .fin 1) :
    gapMs x = .fin 210 := by
  rw [gapMs, h, base_cast]
  norm_num [jMul, jMin]

lemma gapMs_of_one_le (q : ℚ) (hq : 1 ≤ q) :
    gapMs (.fin q) = .fin (min 1200 (210 * q)) := by
  rw [gapMs, normCount_of_one_le q hq, base_cast, jMul, jMin, min_def]

/-- C6. For every count hint the inter-line gap is the base gap (210 ms)
times the normalized count, clamped at 1200 ms: a hint of 1 gives exactly
the base gap; on finite hints `q ≥ 1` the gap is `min 1200 (210 * q)`,
growing linearly in `q` below the cap; and every hint `q ≥ 40/7` (so in
particular every sufficiently large hint) yields exactly the 1200 ms cap. -/
theorem c6_gap_linear_capped :
    (∀ x : JNum, gapMs x = jMin (.fin 1200) (jMul (.fin 210) (normCount x)))
    ∧ gapMs (.fin 1) = .fin 210
    ∧ (∀ q : ℚ, 1 ≤ q → gapMs (.fin q) = .fin (min 1200 (210 * q)))
    ∧ (∀ q : ℚ, 1 ≤ q → 210 * q ≤ 1200 → gapMs (.fin q) = .fin (210 * q))
    ∧ (∀ q : ℚ, 40 / 7 ≤ q → gapMs (.fin q) = .fin 1200) := by
  refine ⟨?_, ?_, gapMs_of_one_le, ?_, ?_⟩
  · intro x
    rw [gapMs, base_cast]
  · exact gapMs_of_norm_one _ (normCount_of_one_le 1 le_rfl)
  · intro q hq hle
    rw [gapMs_of_one_le q hq, min_eq_right hle]
  · intro q hq
    have h1 : (1 : ℚ) ≤ q := le_trans (by norm_num) hq
    have hle : (1200 : ℚ) ≤ 210 * q := by linarith
    rw [gapMs_of_one_le q h1, min_eq_left hle]

/-- Witness for `c6_gap_linear_capped`: concrete instantiations of the
hypothesis-bearing conjuncts. -/
theorem c6_gap_linear_capped_witness :
    gapMs (.fin 3) = .fin 630 ∧ gapMs (.fin 9) = .fin 1200 := by
  constructor
  · have h := c6_gap_linear_capped.2.2.2.1 3 (by norm_num) (by norm_num)
    rw [h]; norm_num
  · exact c6_gap_linear_capped.2.2.2.2 9 (by norm_num)

/-- C9, counterexample. The claim says only sentence-ending punctuation
receives the extended delay; but the source also extends the delay after a
comma, which is not sentence-ending punctuation. -/
theorem c9_only_sentence_ending_cex :
    specSentenceEndingPunct ',' = false ∧ typeDelay ',' = 240 ∧
      ¬ (∀ c : Char, typeDelay c ≠ LINE_TYPE_SPEED_MS →
          specSentenceEndingPunct c = true) := by
  refine ⟨by decide, by decide, fun h => ?_⟩
  exact absurd (h ',' (by decide)) (by decide)

/-- C9, amended. Every character is followed by the 60 ms base delay;
the sentence-ending marks `.` `!` `?` *and also the comma* extend it by a
fixed multiple (3 × base = 180 ms); no other character is extended. -/
theorem c9_type_delay_amended :
    (∀ c : Char, specSentenceEndingPunct c = true →
        typeDelay c = LINE_TYPE_SPEED_MS + LINE_TYPE_SPEED_MS * 3)
    ∧ typeDelay ',' = LINE_TYPE_SPEED_MS + LINE_TYPE_SPEED_MS * 3
    ∧ (∀ c : Char, specSentenceEndingPunct c = false → c ≠ ',' →
        typeDelay c = LINE_TYPE_SPEED_MS) := by
  refine ⟨?_, by decide, ?_⟩
  · intro c hc
    simp only [specSentenceEndingPunct, Bool.or_eq_true, decide_eq_true_eq] at hc
    rcases hc with (h | h) | h <;> subst h <;> decide
  · intro c hc hne
    simp only [specSentenceEndingPunct, Bool.or_eq_false_iff,
      decide_eq_false_iff_not] at hc
    simp [typeDelay, isPauseChar, hc.1.1, hc.1.2, hc.2, hne]

/-- Witness for `c9_type_delay_amended`. -/
theorem c9_type_delay_amended_witness :
    typeDelay '.' = 240 ∧ typeDelay 'a' = 60 := by
  exact ⟨c9_type_delay_amended.1 '.' (by decide),
    c9_type_delay_amended.2.2 'a' (by decide) (by decide)⟩

/-- C10, counterexample. The claim quantifies over every count hint that
is not a positive finite number; the hint `Infinity` is such a value, yet
the source does not normalize it to 1 (its normalized count stays infinite)
and its gap is the 1200 ms cap, not the 210 ms base gap. -/
theorem c10_not_finite_cex :
    (¬ ∃ q : ℚ, 0 < q ∧ JNum.posInf = JNum.fin q)
    ∧ normCount .posInf ≠ .fin 1
    ∧ gapMs .posInf ≠ .fin 210 := by
  refine ⟨?_, ?_, ?_⟩
  · rintro ⟨q, -, h⟩
    exact JNum.noConfusion h
  · have h : normCount .posInf = .posInf := by
      norm_num [normCount, jOrElse, jTruthy, jMax]
    rw [h]
    exact fun h2 => JNum.noConfusion h2
  · rw [gapMs, base_cast]
    norm_num [normCount, jOrElse, jTruthy, jMax, jMul, jMin]

/-- C10, amended. A count hint of zero, a negative (finite or infinite)
hint, NaN (hence any non-numeric value, which coerces to NaN), and a missing
argument (the source's default `filesCount = 1`: a start event with no hint
is the very same transition as a start with hint 1) all normalize to 1, so
the gap is exactly the 210 ms base gap; the hint `Infinity` instead
saturates at the 1200 ms cap; and for every hint whatsoever the gap is a
finite value between the base gap and the cap, so a hint can never make the
gap smaller than the base gap. -/
theorem c10_count_normalization_amended :
    normCount (.fin 0) = .fin 1
    ∧ (∀ q : ℚ, q < 0 → normCount (.fin q) = .fin 1 ∧ gapMs (.fin q) = .fin 210)
    ∧ normCount .nan = .fin 1 ∧ gapMs .nan = .fin 210
    ∧ normCount .negInf = .fin 1 ∧ gapMs .negInf = .fin 210
    ∧ (∀ (d : Dom) (s : St),
        doEv d s (.start none) = doEv d s (.start (some (.fin 1))))
    ∧ normCount (.fin 1) = .fin 1 ∧ gapMs (.fin 1) = .fin 210
    ∧ gapMs (.fin 0) = .fin 210
    ∧ gapMs .posInf = .fin 1200
    ∧ (∀ x : JNum, ∃ q : ℚ, gapMs x = .fin q ∧ 210 ≤ q ∧ q ≤ 1200) := by
  refine ⟨normCount_zero, ?_, normCount_nan, gapMs_of_norm_one _ normCount_nan,
    normCount_negInf, gapMs_of_norm_one _ normCount_negInf,
    fun d s => rfl, normCount_of_one_le 1 (by norm_num), gapMs_fin_one,
    gapMs_of_norm_one _ normCount_zero, ?_, ?_⟩
  · intro q hq
    have hne : q ≠ 0 := ne_of_lt hq
    have hn : normCount (.fin q) = .fin 1 :=
      normCount_small q hne (le_of_lt (lt_trans hq (by norm_num)))
    exact ⟨hn, gapMs_of_norm_one _ hn⟩
  · rw [gapMs, base_cast]
    norm_num [normCount, jOrElse, jTruthy, jMax, jMul, jMin]
  · intro x
    match x with
    | .nan =>
      exact ⟨210, gapMs_of_norm_one _ normCount_nan, by norm_num, by norm_num⟩
    | .posInf =>
      refine ⟨1200, ?_, by norm_num, by norm_num⟩
      rw [gapMs, base_cast]
      norm_num [normCount, jOrElse, jTruthy, jMax, jMul, jMin]
    | .negInf =>
      exact ⟨210, gapMs_of_norm_one _ normCount_negInf, by norm_num, by norm_num⟩
    | .fin q =>
      by_cases hne : q = 0
      · subst hne
        exact ⟨210, gapMs_of_norm_one _ normCount_zero, by norm_num, by norm_num⟩
      rcases le_or_lt q 1 with hle | hlt
      · exact ⟨210, gapMs_of_norm_one _ (normCount_small q hne hle),
          by norm_num, by norm_num⟩
      · refine ⟨min 1200 (210 * q), gapMs_of_one_le q (le_of_lt hlt), ?_,
          min_le_left _ _⟩
        have : (210 : ℚ) ≤ 210 * q := by nlinarith
        exact le_min (by norm_num) this

/-- Witness for `c10_count_normalization_amended`: a concrete negative hint,
and the missing-argument case at the initial state. -/
theorem c10_count_normalization_amended_witness :
    (normCount (.fin (-2)) = .fin 1 ∧ gapMs (.fin (-2)) = .fin 210)
    ∧ doEv domAll init (.start none) = doEv domAll init (.start (some (.fin 1))) := by
  exact ⟨c10_count_normalization_amended.2.1 (-2) (by norm_num),
    c10_count_normalization_amended.2.2.2.2.2.2.1 domAll init⟩

end Overlay
